import Mathlib

/-!
Verification of the Micheline codec and value walker (package `micheline`).

The Go sources under verification are `micheline/value.go` and
`micheline/parameters.go`.  Those files use a number of helpers from the same
package whose sources are not part of the surveyed tree (the `Prim` node type,
the opcode registry, the binary codec, stack, entrypoint enumeration, `getPath`,
scalar rendering).  Each such helper is modelled here from the specification
document and is marked `Modelled from the spec:` in its doc comment.  Everything
else is a direct translation of the Go code.

Conventions of the shallow embedding:
* Go strings are byte sequences; they are modelled as `List Nat` (`GoStr`).
  String literals of the source are ASCII, so their byte encoding is the list
  of code points.
* `*big.Int` is `Int`; `uint32`/`byte` arithmetic is `Nat` with explicit
  truncation (`% 256`, `% 2^32`) where Go converts.
* Go maps from string used by the walker are insertion-ordered association
  lists; the Go map is unordered, but every observation the code makes of the
  map (size, key lookup) is order-independent.
* Fallible code returns `Except Err` or `Option`; `panic` is an explicit
  constructor of the result type where it matters (`Value.MarshalJSON`).
* The walker's recursion is driven by a fuel argument that mirrors its `lvl`
  counter: the Go function aborts at `lvl > 99`, so `101 - lvl` units of fuel
  always suffice, and fuel exhaustion coincides with `lvl > 99`.
-/

namespace Micheline

/-- Go strings are byte sequences (not necessarily valid UTF-8); we model them
as lists of byte values. -/
abbrev GoStr := List Nat

/-- Byte encoding of an ASCII string literal of the Go source.  All literals
appearing in the source are ASCII, where the UTF-8 bytes are exactly the
character code points. -/
def bs (s : String) : GoStr :=
  s.data.map Char.toNat

/-- The opcode registry.  Modelled from the spec: §4.1 lists the closed
enumeration of type constructors, data constructors, keywords, and an
unenumerated family of instruction opcodes (`I_*`), of which representatives
are included. -/
inductive OpCode where
  | K_PARAMETER | K_STORAGE | K_CODE | K_VIEW
  | D_UNIT | D_TRUE | D_FALSE | D_PAIR | D_LEFT | D_RIGHT | D_SOME | D_NONE | D_ELT
  | T_INT | T_NAT | T_STRING | T_BYTES | T_BOOL | T_UNIT | T_OPTION | T_LIST | T_SET
  | T_MAP | T_BIG_MAP | T_PAIR | T_OR | T_LAMBDA | T_ADDRESS | T_KEY | T_KEY_HASH
  | T_SIGNATURE | T_CONTRACT | T_TIMESTAMP | T_MUTEZ | T_CHAIN_ID | T_OPERATION
  | T_TICKET | T_SAPLING_STATE | T_SAPLING_TRANSACTION
  | T_BLS12_381_G1 | T_BLS12_381_G2 | T_BLS12_381_FR | T_NEVER
  | I_CAR | I_CDR | I_PUSH
deriving DecidableEq, Repr, Fintype

/-- The eleven primitive shapes of a `Prim` node, mirroring the Go `PrimType`
enumeration (spec §3: integers, strings, bytes, sequences, and opcode
applications with 0/1/2/n arguments, each with or without annotations). -/
inductive PrimShape where
  | int | string | bytes | sequence
  | nullary | nullaryAnno | unary | unaryAnno | binary | binaryAnno | variadicAnno
deriving DecidableEq, Repr, Fintype

mutual
/-- A Micheline primitive node (spec §3): shape tag, applied opcode, child
arguments, annotations, and one scalar payload slot per scalar shape, plus the
derived `was_packed` flag. -/
inductive Prim where
  | mk (ptype : PrimShape) (opCode : OpCode) (args : PrimList) (anno : List GoStr)
       (intVal : Int) (strVal : GoStr) (bytesVal : GoStr) (wasPacked : Bool)
deriving DecidableEq, Repr

/-- Children of a `Prim` node (a list, spelled out so that structural recursion
over the tree is available). -/
inductive PrimList where
  | nil
  | cons (p : Prim) (ps : PrimList)
deriving DecidableEq, Repr
end

def Prim.ptype : Prim → PrimShape
  | .mk t _ _ _ _ _ _ _ => t

def Prim.opCode : Prim → OpCode
  | .mk _ o _ _ _ _ _ _ => o

def Prim.args : Prim → PrimList
  | .mk _ _ a _ _ _ _ _ => a

def Prim.anno : Prim → List GoStr
  | .mk _ _ _ a _ _ _ _ => a

def Prim.intVal : Prim → Int
  | .mk _ _ _ _ i _ _ _ => i

def Prim.strVal : Prim → GoStr
  | .mk _ _ _ _ _ s _ _ => s

def Prim.bytesVal : Prim → GoStr
  | .mk _ _ _ _ _ _ b _ => b

def Prim.wasPacked : Prim → Bool
  | .mk _ _ _ _ _ _ _ w => w

def PrimList.toList : PrimList → List Prim
  | .nil => []
  | .cons p ps => p :: ps.toList

def PrimList.ofList : List Prim → PrimList
  | [] => .nil
  | p :: ps => .cons p (PrimList.ofList ps)

def PrimList.length : PrimList → Nat
  | .nil => 0
  | .cons _ ps => 1 + ps.length

/-- `args[i]` with a default, modelling Go slice indexing (the Go code never
indexes out of range on the inputs it handles; the default stands in for the
panic value). -/
def PrimList.getD (ps : PrimList) (i : Nat) (d : Prim) : Prim :=
  match ps, i with
  | .nil, _ => d
  | .cons p _, 0 => p
  | .cons _ ps, i + 1 => ps.getD i d

/-- The zero value of the Go `Prim` struct: shape `PrimInt` (iota zero), opcode
zero (`K_PARAMETER`, wire tag 0), no arguments. -/
def zeroPrim : Prim := .mk .int .K_PARAMETER .nil [] 0 [] [] false

/-- `Prim.matchOpCode` translated from `micheline/value.go`: decides whether a
value of this shape/opcode may inhabit a type with root opcode `oc`.  The Go
function sets a `mismatch` flag in a switch over the value shape with a nested
switch over the type opcode, and returns its negation; switches without a
matching case leave the flag untouched. -/
def Prim.matchOpCode (p : Prim) (oc : OpCode) : Bool :=
  let mismatch : Bool :=
    match p.ptype with
    | .sequence =>
      match oc with
      | .T_LIST | .T_MAP | .T_BIG_MAP | .T_SET | .T_LAMBDA | .T_OR | .T_OPTION | .T_PAIR
      | .T_SAPLING_STATE | .T_TICKET => false
      | _ => true
    | .int =>
      match oc with
      | .T_INT | .T_NAT | .T_MUTEZ | .T_TIMESTAMP | .T_BIG_MAP | .T_OR | .T_OPTION
      | .T_SAPLING_STATE | .T_BLS12_381_G1 | .T_BLS12_381_G2 | .T_BLS12_381_FR
      | .T_TICKET => false
      | _ => true
    | .string =>
      match oc with
      | .T_BYTES | .T_STRING | .T_ADDRESS | .T_CONTRACT | .T_KEY_HASH | .T_KEY
      | .T_SIGNATURE | .T_TIMESTAMP | .T_OR | .T_CHAIN_ID | .T_OPTION
      | .T_TICKET => false
      | _ => true
    | .bytes =>
      match oc with
      | .T_BYTES | .T_STRING | .T_BOOL | .T_ADDRESS | .T_KEY_HASH | .T_KEY
      | .T_CONTRACT | .T_SIGNATURE | .T_OPERATION | .T_LAMBDA | .T_OR
      | .T_CHAIN_ID | .T_OPTION | .T_SAPLING_STATE | .T_SAPLING_TRANSACTION
      | .T_BLS12_381_G1 | .T_BLS12_381_G2 | .T_BLS12_381_FR
      | .T_TICKET => false
      | _ => true
    | _ =>
      match p.opCode with
      | .D_PAIR =>
        match oc with
        | .T_PAIR | .T_OR | .T_LIST | .T_OPTION | .T_TICKET => false
        | _ => true
      | .D_SOME | .D_NONE =>
        match oc with
        | .T_OPTION => false
        | _ => true
      | .D_UNIT =>
        match oc with
        | .T_UNIT | .K_PARAMETER => false
        | _ => true
      | .D_LEFT | .D_RIGHT =>
        match oc with
        | .T_OR => false
        | _ => true
      | _ => false
  !mismatch

/-- An application shape: one of the `Prim_0`/`Prim_1`/`Prim_2`/`Prim_N`
shapes, with or without annotations (the shapes handled by the default case of
`matchOpCode`'s outer switch). -/
def PrimShape.isApp : PrimShape → Bool
  | .int | .string | .bytes | .sequence => false
  | _ => true

/-- The §4.6.1 type/value compatibility table, transcribed from the
specification's words: each row lists the type opcodes compatible with one
value shape, and "any other combination is a mismatch". -/
def specCompat (shape : PrimShape) (vop toc : OpCode) : Bool :=
  match shape with
  | .sequence =>
    toc ∈ [OpCode.T_LIST, .T_MAP, .T_BIG_MAP, .T_SET, .T_LAMBDA, .T_OR, .T_OPTION,
           .T_PAIR, .T_SAPLING_STATE, .T_TICKET]
  | .int =>
    toc ∈ [OpCode.T_INT, .T_NAT, .T_MUTEZ, .T_TIMESTAMP, .T_BIG_MAP, .T_OR, .T_OPTION,
           .T_SAPLING_STATE, .T_BLS12_381_G1, .T_BLS12_381_G2, .T_BLS12_381_FR, .T_TICKET]
  | .string =>
    toc ∈ [OpCode.T_BYTES, .T_STRING, .T_ADDRESS, .T_CONTRACT, .T_KEY_HASH, .T_KEY,
           .T_SIGNATURE, .T_TIMESTAMP, .T_OR, .T_CHAIN_ID, .T_OPTION, .T_TICKET]
  | .bytes =>
    toc ∈ [OpCode.T_BYTES, .T_STRING, .T_BOOL, .T_ADDRESS, .T_KEY_HASH, .T_KEY,
           .T_CONTRACT, .T_SIGNATURE, .T_OPERATION, .T_LAMBDA, .T_OR, .T_CHAIN_ID,
           .T_OPTION, .T_SAPLING_STATE, .T_SAPLING_TRANSACTION,
           .T_BLS12_381_G1, .T_BLS12_381_G2, .T_BLS12_381_FR, .T_TICKET]
  | _ =>
    match vop with
    | .D_PAIR => toc ∈ [OpCode.T_PAIR, .T_OR, .T_LIST, .T_OPTION, .T_TICKET]
    | .D_SOME | .D_NONE => toc = OpCode.T_OPTION
    | .D_UNIT => toc ∈ [OpCode.T_UNIT, .K_PARAMETER]
    | .D_LEFT | .D_RIGHT => toc = OpCode.T_OR
    | _ => false

/-- The data-constructor opcodes that the compatibility check inspects on
application-shaped values. -/
def listedDataOp (vop : OpCode) : Bool :=
  vop ∈ [OpCode.D_PAIR, .D_SOME, .D_NONE, .D_UNIT, .D_LEFT, .D_RIGHT]

/-- A nullary `D_TRUE` application value (the Michelson boolean `True`). -/
def dTruePrim : Prim := .mk .nullary .D_TRUE .nil [] 0 [] [] false

/-- The closed error taxonomy (spec §7).  Error messages built by `fmt.Errorf`
in the Go code carry formatted dumps; here each error carries the structured
data the format verbs would print. -/
inductive Err where
  | maxDepth
  | typeMismatch (toc : OpCode) (vshape : PrimShape) (vop : OpCode)
  | badEltItem (vshape : PrimShape) (vop : OpCode) (toc : OpCode)
  | badEltSeq (vshape : PrimShape) (vop : OpCode) (toc : OpCode)
  | badOptionCode (vop : OpCode)
  | badOrBranch (vop : OpCode)
  | badKey (toc : OpCode)
  | missingEntrypoint (name : GoStr)
  | missingEntrypointRebase (name : GoStr) (pre : String)
  | shortBuffer
  | invalidTag (t : Nat)
  | malformedInt
deriving DecidableEq, Repr

/-- Wire tag byte of an opcode.  Modelled from the spec: §4.1 says each code
has a single wire tag byte but does not list the table; the assignment below
follows the canonical Michelson tag table.  No claim depends on a particular
tag value, only on the assignment being injective. -/
def OpCode.tag : OpCode → Nat
  | .K_PARAMETER => 0x00
  | .K_STORAGE => 0x01
  | .K_CODE => 0x02
  | .D_FALSE => 0x03
  | .D_ELT => 0x04
  | .D_LEFT => 0x05
  | .D_NONE => 0x06
  | .D_PAIR => 0x07
  | .D_RIGHT => 0x08
  | .D_SOME => 0x09
  | .D_TRUE => 0x0A
  | .D_UNIT => 0x0B
  | .I_CAR => 0x16
  | .I_CDR => 0x17
  | .I_PUSH => 0x43
  | .T_BOOL => 0x59
  | .T_CONTRACT => 0x5A
  | .T_INT => 0x5B
  | .T_KEY => 0x5C
  | .T_KEY_HASH => 0x5D
  | .T_LAMBDA => 0x5E
  | .T_LIST => 0x5F
  | .T_MAP => 0x60
  | .T_BIG_MAP => 0x61
  | .T_NAT => 0x62
  | .T_OPTION => 0x63
  | .T_OR => 0x64
  | .T_PAIR => 0x65
  | .T_SET => 0x66
  | .T_SIGNATURE => 0x67
  | .T_STRING => 0x68
  | .T_BYTES => 0x69
  | .T_MUTEZ => 0x6A
  | .T_TIMESTAMP => 0x6B
  | .T_UNIT => 0x6C
  | .T_OPERATION => 0x6D
  | .T_ADDRESS => 0x6E
  | .T_CHAIN_ID => 0x74
  | .K_VIEW => 0x75
  | .T_SAPLING_TRANSACTION => 0x76
  | .T_SAPLING_STATE => 0x77
  | .T_NEVER => 0x78
  | .T_BLS12_381_G1 => 0x7A
  | .T_BLS12_381_G2 => 0x7B
  | .T_BLS12_381_FR => 0x7C
  | .T_TICKET => 0x87

/-- Inverse of `OpCode.tag`.  Modelled from the spec: the registry exposes
tag↔code; unknown tags fail decoding (strict mode, §4.1). -/
def tagToOp (t : Nat) : Option OpCode :=
  match t with
  | 0x00 => some .K_PARAMETER
  | 0x01 => some .K_STORAGE
  | 0x02 => some .K_CODE
  | 0x03 => some .D_FALSE
  | 0x04 => some .D_ELT
  | 0x05 => some .D_LEFT
  | 0x06 => some .D_NONE
  | 0x07 => some .D_PAIR
  | 0x08 => some .D_RIGHT
  | 0x09 => some .D_SOME
  | 0x0A => some .D_TRUE
  | 0x0B => some .D_UNIT
  | 0x16 => some .I_CAR
  | 0x17 => some .I_CDR
  | 0x43 => some .I_PUSH
  | 0x59 => some .T_BOOL
  | 0x5A => some .T_CONTRACT
  | 0x5B => some .T_INT
  | 0x5C => some .T_KEY
  | 0x5D => some .T_KEY_HASH
  | 0x5E => some .T_LAMBDA
  | 0x5F => some .T_LIST
  | 0x60 => some .T_MAP
  | 0x61 => some .T_BIG_MAP
  | 0x62 => some .T_NAT
  | 0x63 => some .T_OPTION
  | 0x64 => some .T_OR
  | 0x65 => some .T_PAIR
  | 0x66 => some .T_SET
  | 0x67 => some .T_SIGNATURE
  | 0x68 => some .T_STRING
  | 0x69 => some .T_BYTES
  | 0x6A => some .T_MUTEZ
  | 0x6B => some .T_TIMESTAMP
  | 0x6C => some .T_UNIT
  | 0x6D => some .T_OPERATION
  | 0x6E => some .T_ADDRESS
  | 0x74 => some .T_CHAIN_ID
  | 0x75 => some .K_VIEW
  | 0x76 => some .T_SAPLING_TRANSACTION
  | 0x77 => some .T_SAPLING_STATE
  | 0x78 => some .T_NEVER
  | 0x7A => some .T_BLS12_381_G1
  | 0x7B => some .T_BLS12_381_G2
  | 0x7C => some .T_BLS12_381_FR
  | 0x87 => some .T_TICKET
  | _ => none

/-- Big-endian `u32` bytes of a length, as written by `binary.BigEndian`
(truncating like Go's `uint32` conversion). -/
def u32 (n : Nat) : List Nat :=
  [n / 16777216 % 256, n / 65536 % 256, n / 256 % 256, n % 256]

/-- Read a big-endian `u32`. -/
def readU32 : List Nat → Option (Nat × List Nat)
  | a :: b :: c :: d :: rest => some (((a * 256 + b) * 256 + c) * 256 + d, rest)
  | _ => none

/-- Continuation bytes of a ZArith integer beyond the first six payload bits:
little-endian base-128 groups, continuation in bit 7 (spec §4.2).  The fuel
argument only serves termination; `n` itself is always sufficient fuel plus
one. -/
def zarithTail : Nat → Nat → List Nat
  | 0, _ => []
  | f + 1, n => if n < 128 then [n] else (n % 128 + 128) :: zarithTail f (n / 128)

/-- ZArith encoding of a signed integer (spec §4.2): sign in bit 6 of the
first byte, six payload bits, then base-128 continuation bytes. -/
def zarithEncode (i : Int) : List Nat :=
  let sign : Nat := if i < 0 then 64 else 0
  let mag := i.natAbs
  if mag / 64 = 0 then [mag % 64 + sign]
  else (mag % 64 + sign + 128) :: zarithTail (mag / 64 + 1) (mag / 64)

/-- Decode the base-128 continuation bytes of a ZArith integer. -/
def zarithDecTail : List Nat → Option (Nat × List Nat)
  | [] => none
  | b :: rest =>
    if b < 128 then some (b, rest)
    else
      match zarithDecTail rest with
      | some (v, r) => some (b % 128 + 128 * v, r)
      | none => none

/-- Decode a ZArith integer (spec §4.2). -/
def zarithDecode : List Nat → Option (Int × List Nat)
  | [] => none
  | b :: rest =>
    let neg := b / 64 % 2 = 1
    let low := b % 64
    if b < 128 then
      some (if neg then -(low : Int) else (low : Int), rest)
    else
      match zarithDecTail rest with
      | some (v, r) =>
        let m := low + 64 * v
        some (if neg then -(m : Int) else (m : Int), r)
      | none => none

/-- An `Int` leaf as the binary decoder produces it (all other fields are the
Go zero values). -/
def intPrim (i : Int) : Prim := .mk .int .K_PARAMETER .nil [] i [] [] false

/-- A `String` leaf as the binary decoder produces it. -/
def strPrim (s : GoStr) : Prim := .mk .string .K_PARAMETER .nil [] 0 s [] false

/-- A `Bytes` leaf as the binary decoder produces it. -/
def bytesPrim (b : GoStr) : Prim := .mk .bytes .K_PARAMETER .nil [] 0 [] b false

/-- A sequence node as the binary decoder produces it. -/
def seqPrim (ps : PrimList) : Prim := .mk .sequence .K_PARAMETER ps [] 0 [] [] false

/-- The `D_UNIT` value constructed by `Parameters.UnmarshalBinary` for the
one-byte short form (`Prim{Type: PrimNullary, OpCode: D_UNIT}`). -/
def unitPrim : Prim := .mk .nullary .D_UNIT .nil [] 0 [] [] false

/-- Join annotations with single spaces (byte 32), the serialized annotation
block of spec §4.2 (no trailing separator). -/
def joinByte (sep : Nat) : List GoStr → List Nat
  | [] => []
  | [a] => a
  | a :: rest => a ++ sep :: joinByte sep rest

/-- Split a byte string on a separator byte, like `strings.Split`: always at
least one (possibly empty) segment. -/
def splitByte (sep : Nat) : List Nat → List GoStr
  | [] => [[]]
  | b :: rest =>
    let r := splitByte sep rest
    if b = sep then [] :: r
    else
      match r with
      | s :: ss => (b :: s) :: ss
      | [] => [[b]]

/-- Serialized annotation block: `u32` length then the space-joined
annotations (spec §4.2). -/
def annoBlock (annos : List GoStr) : List Nat :=
  let j := joinByte 32 annos
  u32 j.length ++ j

/-- Read an annotation block.  An empty block yields no annotations. -/
def readAnnoBlock (l : List Nat) : Except Err (List GoStr × List Nat) :=
  match readU32 l with
  | none => .error .shortBuffer
  | some (n, rest) =>
    if rest.length < n then .error .shortBuffer
    else
      let block := rest.take n
      .ok (if block = [] then [] else splitByte 32 block, rest.drop n)

mutual
/-- Binary encoding of a `Prim` tree.  Modelled from the spec: §4.2 gives the
full wire layout (the Go `EncodeBuffer` is outside the surveyed files).  One
leading shape tag, then shape-specific bytes. -/
def encodePrim : Prim → List Nat
  | .mk .int _ _ _ i _ _ _ => 0 :: zarithEncode i
  | .mk .string _ _ _ _ s _ _ => 1 :: u32 s.length ++ s
  | .mk .sequence _ args _ _ _ _ _ =>
    let body := encodeList args
    2 :: u32 body.length ++ body
  | .mk .nullary op _ _ _ _ _ _ => [3, op.tag]
  | .mk .nullaryAnno op _ anno _ _ _ _ => 4 :: op.tag :: annoBlock anno
  | .mk .unary op args _ _ _ _ _ => 5 :: op.tag :: encodeList args
  | .mk .unaryAnno op args anno _ _ _ _ => 6 :: op.tag :: (encodeList args ++ annoBlock anno)
  | .mk .binary op args _ _ _ _ _ => 7 :: op.tag :: encodeList args
  | .mk .binaryAnno op args anno _ _ _ _ => 8 :: op.tag :: (encodeList args ++ annoBlock anno)
  | .mk .variadicAnno op args anno _ _ _ _ =>
    let body := encodeList args
    9 :: op.tag :: (u32 body.length ++ body ++ annoBlock anno)
  | .mk .bytes _ _ _ _ _ b _ => 10 :: u32 b.length ++ b

/-- Concatenated binary encodings of a list of children. -/
def encodeList : PrimList → List Nat
  | .nil => []
  | .cons p ps => encodePrim p ++ encodeList ps
end

mutual
/-- Binary decoding of a `Prim` tree, by shape tag (spec §4.2).  The fuel
argument only serves termination; each node consumes at least one input byte,
so `input length + 1` is always sufficient.  Fuel exhaustion reports
`shortBuffer`. -/
def decodePrimF : Nat → List Nat → Except Err (Prim × List Nat)
  | 0, _ => .error .shortBuffer
  | _ + 1, [] => .error .shortBuffer
  | f + 1, t :: rest =>
    match t with
    | 0 =>
      match zarithDecode rest with
      | some (i, r) => .ok (intPrim i, r)
      | none => .error .malformedInt
    | 1 =>
      match readU32 rest with
      | none => .error .shortBuffer
      | some (n, r) =>
        if r.length < n then .error .shortBuffer
        else .ok (strPrim (r.take n), r.drop n)
    | 2 =>
      match readU32 rest with
      | none => .error .shortBuffer
      | some (n, r) =>
        if r.length < n then .error .shortBuffer
        else
          match decodeSeqF f (r.take n) with
          | .ok ps => .ok (seqPrim ps, r.drop n)
          | .error e => .error e
    | 3 =>
      match rest with
      | [] => .error .shortBuffer
      | ob :: r =>
        match tagToOp ob with
        | some op => .ok (.mk .nullary op .nil [] 0 [] [] false, r)
        | none => .error (.invalidTag ob)
    | 4 =>
      match rest with
      | [] => .error .shortBuffer
      | ob :: r =>
        match tagToOp ob with
        | some op =>
          match readAnnoBlock r with
          | .ok (annos, r2) => .ok (.mk .nullaryAnno op .nil annos 0 [] [] false, r2)
          | .error e => .error e
        | none => .error (.invalidTag ob)
    | 5 =>
      match rest with
      | [] => .error .shortBuffer
      | ob :: r =>
        match tagToOp ob with
        | some op =>
          match decodePrimF f r with
          | .ok (a, r2) => .ok (.mk .unary op (.cons a .nil) [] 0 [] [] false, r2)
          | .error e => .error e
        | none => .error (.invalidTag ob)
    | 6 =>
      match rest with
      | [] => .error .shortBuffer
      | ob :: r =>
        match tagToOp ob with
        | some op =>
          match decodePrimF f r with
          | .ok (a, r2) =>
            match readAnnoBlock r2 with
            | .ok (annos, r3) => .ok (.mk .unaryAnno op (.cons a .nil) annos 0 [] [] false, r3)
            | .error e => .error e
          | .error e => .error e
        | none => .error (.invalidTag ob)
    | 7 =>
      match rest with
      | [] => .error .shortBuffer
      | ob :: r =>
        match tagToOp ob with
        | some op =>
          match decodePrimF f r with
          | .ok (a, r2) =>
            match decodePrimF f r2 with
            | .ok (b, r3) => .ok (.mk .binary op (.cons a (.cons b .nil)) [] 0 [] [] false, r3)
            | .error e => .error e
          | .error e => .error e
        | none => .error (.invalidTag ob)
    | 8 =>
      match rest with
      | [] => .error .shortBuffer
      | ob :: r =>
        match tagToOp ob with
        | some op =>
          match decodePrimF f r with
          | .ok (a, r2) =>
            match decodePrimF f r2 with
            | .ok (b, r3) =>
              match readAnnoBlock r3 with
              | .ok (annos, r4) =>
                .ok (.mk .binaryAnno op (.cons a (.cons b .nil)) annos 0 [] [] false, r4)
              | .error e => .error e
            | .error e => .error e
          | .error e => .error e
        | none => .error (.invalidTag ob)
    | 9 =>
      match rest with
      | [] => .error .shortBuffer
      | ob :: r =>
        match tagToOp ob with
        | some op =>
          match readU32 r with
          | none => .error .shortBuffer
          | some (n, r2) =>
            if r2.length < n then .error .shortBuffer
            else
              match decodeSeqF f (r2.take n) with
              | .ok ps =>
                match readAnnoBlock (r2.drop n) with
                | .ok (annos, r3) => .ok (.mk .variadicAnno op ps annos 0 [] [] false, r3)
                | .error e => .error e
              | .error e => .error e
        | none => .error (.invalidTag ob)
    | 10 =>
      match readU32 rest with
      | none => .error .shortBuffer
      | some (n, r) =>
        if r.length < n then .error .shortBuffer
        else .ok (bytesPrim (r.take n), r.drop n)
    | _ => .error (.invalidTag t)

/-- Decode consecutive `Prim`s until the block is exhausted. -/
def decodeSeqF : Nat → List Nat → Except Err PrimList
  | 0, _ => .error .shortBuffer
  | _ + 1, [] => .ok .nil
  | f + 1, l =>
    match decodePrimF f l with
    | .ok (p, r) =>
      match decodeSeqF f r with
      | .ok ps => .ok (.cons p ps)
      | .error e => .error e
    | .error e => .error e
end

/-- `Prim.DecodeBuffer`: decode one `Prim` from a byte slice (fuel instantiated
with a sufficient bound). -/
def decodePrim (l : List Nat) : Except Err (Prim × List Nat) :=
  decodePrimF (l.length + 1) l

mutual
/-- Number of nodes of a tree (the recursion measure used in the codec
proofs). -/
def psize : Prim → Nat
  | .mk _ _ args _ _ _ _ _ => 2 + plsize args

def plsize : PrimList → Nat
  | .nil => 0
  | .cons p ps => psize p + plsize ps
end

/-- Annotations that survive the space-joined annotation block: nonempty and
without embedded spaces.  Real annotations always start with a sigil character
(spec §3), so this holds for them. -/
def validAnnos (annos : List GoStr) : Bool :=
  annos.all (fun a => !a.isEmpty && !a.contains 32)

mutual
/-- Well-formed `Prim` trees: argument counts and annotation lists consistent
with the shape (spec §3 invariants), unused payload slots at their Go zero
values, length fields below `2^32`, and `was_packed` unset (as after any fresh
decode).  Binary decoding inverts binary encoding exactly on these trees. -/
def validPrim : Prim → Bool
  | .mk t op args anno i s b w =>
    !w &&
    match t with
    | .int => op == .K_PARAMETER && args == .nil && anno == [] && s == [] && b == []
    | .string =>
      op == .K_PARAMETER && args == .nil && anno == [] && i == 0 && b == [] &&
      s.length < 4294967296
    | .bytes =>
      op == .K_PARAMETER && args == .nil && anno == [] && i == 0 && s == [] &&
      b.length < 4294967296
    | .sequence =>
      op == .K_PARAMETER && anno == [] && i == 0 && s == [] && b == [] &&
      validPrimList args && (encodeList args).length < 4294967296
    | .nullary => args == .nil && anno == [] && i == 0 && s == [] && b == []
    | .nullaryAnno =>
      args == .nil && validAnnos anno && i == 0 && s == [] && b == [] &&
      (joinByte 32 anno).length < 4294967296
    | .unary =>
      args.length == 1 && validPrimList args && anno == [] && i == 0 && s == [] && b == []
    | .unaryAnno =>
      args.length == 1 && validPrimList args && validAnnos anno && i == 0 && s == [] &&
      b == [] && (joinByte 32 anno).length < 4294967296
    | .binary =>
      args.length == 2 && validPrimList args && anno == [] && i == 0 && s == [] && b == []
    | .binaryAnno =>
      args.length == 2 && validPrimList args && validAnnos anno && i == 0 && s == [] &&
      b == [] && (joinByte 32 anno).length < 4294967296
    | .variadicAnno =>
      validPrimList args && validAnnos anno && i == 0 && s == [] && b == [] &&
      (encodeList args).length < 4294967296 && (joinByte 32 anno).length < 4294967296

def validPrimList : PrimList → Bool
  | .nil => true
  | .cons p ps => validPrim p && validPrimList ps
end

/-- The `Parameters` envelope (spec §3): an entrypoint name and a value. -/
structure Parameters where
  entrypoint : GoStr
  value : Prim
deriving Repr, DecidableEq

/-- Patch a big-endian `u32` into a byte list at a given offset, as
`binary.BigEndian.PutUint32(res[n:], …)` does on the assembled buffer. -/
def patchU32 (l : List Nat) (off v : Nat) : List Nat :=
  l.take off ++ u32 v ++ l.drop (off + 4)

/-- `Parameters.MarshalBinary` translated from `micheline/parameters.go`:
one-byte short form for the empty entrypoint with a `D_UNIT` value, otherwise
the v005 long form: `0x01`, entrypoint tag bytes, a `u32` size placeholder that
is patched to the encoded value's size, then the encoded value. -/
def Parameters.marshalBinary (p : Parameters) : List Nat :=
  if p.entrypoint.length = 0 ∧ p.value.opCode = .D_UNIT then [0]
  else
    let tn : List Nat × Nat :=
      if p.entrypoint = bs "" ∨ p.entrypoint = bs "default" then ([0], 2)
      else if p.entrypoint = bs "root" then ([1], 2)
      else if p.entrypoint = bs "do" then ([2], 2)
      else if p.entrypoint = bs "set_delegate" then ([3], 2)
      else if p.entrypoint = bs "remove_delegate" then ([4], 2)
      else (255 :: p.entrypoint.length % 256 :: p.entrypoint, 2 + 1 + p.entrypoint.length)
    let res := 1 :: tn.1 ++ u32 0 ++ encodePrim p.value
    patchU32 res tn.2 (res.length - tn.2 - 4)

/-- `Parameters.UnmarshalBinary` translated from `micheline/parameters.go`.
The Go code indexes `data[1:]` and `binary.BigEndian.Uint32` on unchecked
slices; the panics this causes on truncated input are modelled as
`shortBuffer`. -/
def Parameters.unmarshalBinary (data : List Nat) : Except Err Parameters :=
  if data = [0] then .ok ⟨bs "default", unitPrim⟩
  else
    match data with
    | [] => .error .shortBuffer
    | _ :: rest =>
      match rest with
      | [] => .error .shortBuffer
      | tag :: r2 =>
        let name : Except Err (GoStr × List Nat) :=
          match tag with
          | 0 => .ok (bs "default", r2)
          | 1 => .ok (bs "root", r2)
          | 2 => .ok (bs "do", r2)
          | 3 => .ok (bs "set_delegate", r2)
          | 4 => .ok (bs "remove_delegate", r2)
          | _ =>
            match r2 with
            | [] => .error .shortBuffer
            | sz :: r3 =>
              if r3.length < sz then .error .shortBuffer
              else .ok (r3.take sz, r3.drop sz)
        match name with
        | .error e => .error e
        | .ok (ep, r4) =>
          match readU32 r4 with
          | none => .error .shortBuffer
          | some (size, r5) =>
            if r5.length < size then .error .shortBuffer
            else
              match decodePrim r5 with
              | .ok (prim, _) => .ok ⟨ep, prim⟩
              | .error e => .error e

/-- Decimal digits (ASCII bytes) of a natural number. -/
def natDecimal (n : Nat) : GoStr := (Nat.toDigits 10 n).map Char.toNat

/-- Decimal ASCII bytes of an integer. -/
def intDecimal (i : Int) : GoStr :=
  if i < 0 then 45 :: natDecimal i.natAbs else natDecimal i.natAbs

/-- Lowercase hex digit byte. -/
def hexDigit (n : Nat) : Nat := if n < 10 then 48 + n else 87 + n

/-- Lowercase hex rendering of a byte string (no `0x`), spec §4.3. -/
def hexBytes (l : GoStr) : GoStr :=
  l.foldr (fun b acc => hexDigit (b / 16 % 16) :: hexDigit (b % 16) :: acc) []

/-- Canonical textual name of an opcode.  Modelled from the spec: §4.1 says
each code has a single canonical textual name (the Michelson names). -/
def opName : OpCode → GoStr
  | .K_PARAMETER => bs "parameter"
  | .K_STORAGE => bs "storage"
  | .K_CODE => bs "code"
  | .K_VIEW => bs "view"
  | .D_UNIT => bs "Unit"
  | .D_TRUE => bs "True"
  | .D_FALSE => bs "False"
  | .D_PAIR => bs "Pair"
  | .D_LEFT => bs "Left"
  | .D_RIGHT => bs "Right"
  | .D_SOME => bs "Some"
  | .D_NONE => bs "None"
  | .D_ELT => bs "Elt"
  | .T_INT => bs "int"
  | .T_NAT => bs "nat"
  | .T_STRING => bs "string"
  | .T_BYTES => bs "bytes"
  | .T_BOOL => bs "bool"
  | .T_UNIT => bs "unit"
  | .T_OPTION => bs "option"
  | .T_LIST => bs "list"
  | .T_SET => bs "set"
  | .T_MAP => bs "map"
  | .T_BIG_MAP => bs "big_map"
  | .T_PAIR => bs "pair"
  | .T_OR => bs "or"
  | .T_LAMBDA => bs "lambda"
  | .T_ADDRESS => bs "address"
  | .T_KEY => bs "key"
  | .T_KEY_HASH => bs "key_hash"
  | .T_SIGNATURE => bs "signature"
  | .T_CONTRACT => bs "contract"
  | .T_TIMESTAMP => bs "timestamp"
  | .T_MUTEZ => bs "mutez"
  | .T_CHAIN_ID => bs "chain_id"
  | .T_OPERATION => bs "operation"
  | .T_TICKET => bs "ticket"
  | .T_SAPLING_STATE => bs "sapling_state"
  | .T_SAPLING_TRANSACTION => bs "sapling_transaction"
  | .T_BLS12_381_G1 => bs "bls12_381_g1"
  | .T_BLS12_381_G2 => bs "bls12_381_g2"
  | .T_BLS12_381_FR => bs "bls12_381_fr"
  | .T_NEVER => bs "never"
  | .I_CAR => bs "CAR"
  | .I_CDR => bs "CDR"
  | .I_PUSH => bs "PUSH"

/-- JSON values (the output of Go's `json.Marshal` abstracted from its byte
rendering; `json.Marshal` is injective on distinct values of this type). -/
inductive Json where
  | null
  | jbool (b : Bool)
  | num (i : Int)
  | str (s : GoStr)
  | arr (xs : List Json)
  | obj (fields : List (GoStr × Json))

mutual
/-- JSON encoding of a `Prim` tree.  Modelled from the spec: §4.3 gives the
layout (`{"int": …}`, `{"string": …}`, `{"bytes": …}`, arrays for sequences,
and `{"prim": …, "args": …, "annots": …}` with empty fields omitted). -/
def jsonOfPrim : Prim → Json
  | .mk .int _ _ _ i _ _ _ => .obj [(bs "int", .str (intDecimal i))]
  | .mk .string _ _ _ _ s _ _ => .obj [(bs "string", .str s)]
  | .mk .bytes _ _ _ _ _ b _ => .obj [(bs "bytes", .str (hexBytes b))]
  | .mk .sequence _ args _ _ _ _ _ => .arr (jsonOfList args)
  | .mk _ op args anno _ _ _ _ =>
    .obj ([(bs "prim", Json.str (opName op))] ++
      (match args with
       | .nil => []
       | _ => [(bs "args", Json.arr (jsonOfList args))]) ++
      (if anno.isEmpty then [] else [(bs "annots", Json.arr (anno.map Json.str))]))

def jsonOfList : PrimList → List Json
  | .nil => []
  | .cons p ps => jsonOfPrim p :: jsonOfList ps
end

/-- `Parameters.MarshalJSON` translated from `micheline/parameters.go`: the
empty entrypoint, or `default` with a `D_UNIT` value, emits just the value
tree; otherwise the `{entrypoint, value}` wrapper object. -/
def Parameters.marshalJSON (p : Parameters) : Json :=
  if p.entrypoint = bs "" ∨ (p.entrypoint = bs "default" ∧ p.value.opCode = .D_UNIT) then
    jsonOfPrim p.value
  else
    .obj [(bs "entrypoint", .str p.entrypoint), (bs "value", jsonOfPrim p.value)]

/-- First `%`-annotation of a node, without the sigil (the node's field label,
spec §3). -/
def fieldAnno (p : Prim) : Option GoStr :=
  (p.anno.find? (fun a => a.head? == some 37)).map (·.drop 1)

/-- First `@`-annotation of a node, without the sigil (the node's variable
label, spec §3). -/
def varAnno (p : Prim) : Option GoStr :=
  (p.anno.find? (fun a => a.head? == some 64)).map (·.drop 1)

/-- A `Type` is a `Prim` whose root applies a type opcode (spec §3); the Go
`Type` struct embeds the `Prim`. -/
structure Ty where
  prim : Prim
deriving Repr, DecidableEq

def Ty.opCode (t : Ty) : OpCode := t.prim.opCode

def Ty.args (t : Ty) : PrimList := t.prim.args

/-- Structural shape/argument-count consistency of a node.  Modelled from the
spec: §3's invariant ("a valid `Prim` has `args.len()` consistent with its
shape"); used by `Parameters.Branch` and `Parameters.Unwrap` as a loop guard. -/
def Prim.isValid (p : Prim) : Bool :=
  match p.ptype with
  | .int | .string | .bytes => p.args.length == 0
  | .nullary | .nullaryAnno => p.args.length == 0
  | .unary | .unaryAnno => p.args.length == 1
  | .binary | .binaryAnno => p.args.length == 2
  | .sequence | .variadicAnno => true

/-- An entrypoint record (spec §3): id, name, `/L/R…` branch path, and the
sub-type at that path. -/
structure Entrypoint where
  id : Nat
  name : GoStr
  branch : String
  typ : Prim
deriving Repr, DecidableEq

/-- The Go zero value of the `Entrypoint` struct. -/
def zeroEntrypoint : Entrypoint := ⟨0, [], "", zeroPrim⟩

/-- Depth-first enumeration of annotated `or`-branches.  Modelled from the
spec: §4.5 — a `%`-named branch is an entrypoint at its `/L/R…` path and
recursion does not continue past it unless interior entrypoints are requested;
unnamed branches are recursed into. -/
def epScan (ii : Bool) : Prim → String → List (GoStr × String × Prim)
  | .mk _ op (.cons a (.cons b .nil)) _ _ _ _ _, path =>
    if op = .T_OR then
      (match fieldAnno a with
       | some n => (n, path ++ "/L", a) :: (if ii then epScan ii a (path ++ "/L") else [])
       | none => epScan ii a (path ++ "/L")) ++
      (match fieldAnno b with
       | some n => (n, path ++ "/R", b) :: (if ii then epScan ii b (path ++ "/R") else [])
       | none => epScan ii b (path ++ "/R"))
    else []
  | _, _ => []

/-- The all-left-spine terminus of a type: follow left `or`-children to the
first non-`or` node (spec §4.5, the implicit `default` entrypoint of an
unnamed root). -/
def leftSpine : Prim → String → String × Prim
  | p@(.mk _ op (.cons a _) _ _ _ _ _), path =>
    if op = .T_OR then leftSpine a (path ++ "/L") else (path, p)
  | p, path => (path, p)

/-- `Type.Entrypoints` result.  Modelled from the spec: §4.5 — the DFS
enumeration of named `or`-branches; a `%root`/`%default`-annotated root is
recorded under that name; an unnamed root additionally exposes a `default`
entrypoint at the all-left-spine terminus.  Ids are assigned in enumeration
order.  (The Go function also returns an error, which `MapEntrypoint`
discards.) -/
def entrypointsFn (typ : Ty) (ii : Bool) : List Entrypoint :=
  let root := typ.prim
  let base :=
    match fieldAnno root with
    | some n =>
      if n = bs "root" ∨ n = bs "default" then (n, "", root) :: epScan ii root ""
      else epScan ii root ""
    | none => epScan ii root ""
  let full :=
    match fieldAnno root with
    | none =>
      if base.any (fun e => e.1 == bs "default") then base
      else base ++ [((bs "default", leftSpine root ""))]
    | some _ => base
  full.enum.map fun e => ⟨e.1, e.2.1, e.2.2.1, e.2.2.2⟩

/-- Name lookup in the entrypoint table (the Go `Entrypoints` map indexing). -/
def epsFindName (eps : List Entrypoint) (n : GoStr) : Option Entrypoint :=
  eps.find? (fun e => e.name == n)

/-- `Entrypoints.FindBranch`.  Modelled from the spec: §4.5's lookup by
branch. -/
def epsFindBranch (eps : List Entrypoint) (b : String) : Option Entrypoint :=
  eps.find? (fun e => e.branch == b)

/-- `Entrypoints.FindId`.  Modelled from the spec: §4.5's id-0 fallback
lookup. -/
def epsFindId (eps : List Entrypoint) (i : Nat) : Option Entrypoint :=
  eps.find? (fun e => e.id == i)

/-- `Type.SearchEntrypointName`.  Modelled from the spec: returns the branch
path prefix of the named annotated branch, empty when absent (§4.5, §6). -/
def Ty.searchEntrypointName (typ : Ty) (n : GoStr) : String :=
  match epsFindName (entrypointsFn typ true) n with
  | some ep => ep.branch
  | none => ""

/-- Trim one leading occurrence, like `strings.TrimPrefix`. -/
def dropPreStr (pre s : String) : String :=
  if s.startsWith pre then s.drop pre.length else s

/-- Trim one trailing occurrence, like `strings.TrimSuffix`. -/
def dropSufStr (suf s : String) : String :=
  if s.endsWith suf then s.dropRight suf.length else s

/-- The loop of `Parameters.Branch` (`micheline/parameters.go`): follow the
value's `D_LEFT`/`D_RIGHT` spine, extending the branch string, stopping early
when the branch so far names a known entrypoint.  (`node.Args[0]` on a
childless node would panic in Go; the branch built so far stands in.) -/
def branchGo (eps : List Entrypoint) : Prim → String → String
  | .mk _ op args _ _ _ _ _, branch =>
    if op = .D_LEFT ∨ op = .D_RIGHT then
      let branch' := branch ++ (if op = .D_LEFT then "/L" else "/R")
      match args with
      | .cons a _ =>
        if (epsFindBranch eps branch').isSome then branch' else branchGo eps a branch'
      | .nil => branch'
    else branch

/-- `Parameters.Branch` translated from `micheline/parameters.go`. -/
def Parameters.branchFn (p : Parameters) (pre : String) (eps : List Entrypoint) : String :=
  if ¬ p.value.isValid then "" else branchGo eps p.value pre

/-- The loop of `Parameters.Unwrap`: follow one value child per `L`/`R` path
segment (both cases read `Args[0]`), stopping at invalid nodes. -/
def unwrapGo : List String → Prim → Prim
  | [], node => node
  | v :: rest, node =>
    if ¬ node.isValid then node
    else unwrapGo rest (if v = "L" ∨ v = "R" then node.args.getD 0 zeroPrim else node)

/-- `Parameters.Unwrap` translated from `micheline/parameters.go`. -/
def Parameters.unwrap (p : Parameters) (branch : String) : Prim :=
  let b := dropSufStr "/" (dropPreStr "/" branch)
  unwrapGo (b.splitOn "/") p.value

/-- `Parameters.MapEntrypoint` translated from `micheline/parameters.go`. -/
def Parameters.mapEntrypoint (p : Parameters) (typ : Ty) : Except Err (Entrypoint × Prim) :=
  let eps := entrypointsFn typ true
  if p.entrypoint = bs "default" then
    let pre := typ.searchEntrypointName (bs "default")
    let branch := p.branchFn pre eps
    match epsFindBranch eps branch with
    | some ep => .ok (ep, p.unwrap (dropPreStr pre ep.branch))
    | none => .ok ((epsFindId eps 0).getD zeroEntrypoint, p.value)
  else if p.entrypoint = bs "root" ∨ p.entrypoint = bs "" then
    let branch := p.branchFn "" eps
    let ep :=
      match epsFindBranch eps branch with
      | some ep => ep
      | none => (epsFindId eps 0).getD zeroEntrypoint
    .ok (ep, p.unwrap ep.branch)
  else
    match epsFindName eps p.entrypoint with
    | some ep => .ok (ep, p.value)
    | none =>
      let pre := typ.searchEntrypointName p.entrypoint
      if pre = "" then .error (.missingEntrypoint p.entrypoint)
      else
        match epsFindBranch eps (p.branchFn pre eps) with
        | some ep => .ok (ep, p.unwrap (dropPreStr pre ep.branch))
        | none => .error (.missingEntrypointRebase p.entrypoint pre)

/-- A `unit` type leaf carrying a `%`-field annotation. -/
def unitTyNamed (n : String) : Prim :=
  .mk .nullaryAnno .T_UNIT .nil [bs ("%" ++ n)] 0 [] [] false

/-- A binary `or` type node. -/
def orPrim (a b : Prim) : Prim :=
  .mk .binary .T_OR (.cons a (.cons b .nil)) [] 0 [] [] false

/-- The S4 parameter type of the spec: `or (unit %a) (or (unit %b) (unit %c))`. -/
def tyS4 : Ty := ⟨orPrim (unitTyNamed "a") (orPrim (unitTyNamed "b") (unitTyNamed "c"))⟩

/-- A `D_LEFT` wrapper value. -/
def dLeft (p : Prim) : Prim := .mk .unary .D_LEFT (.cons p .nil) [] 0 [] [] false

/-- A `D_RIGHT` wrapper value. -/
def dRight (p : Prim) : Prim := .mk .unary .D_RIGHT (.cons p .nil) [] 0 [] [] false

/-- The value `Left(Right(Right(Unit)))` from the claim. -/
def lrrUnit : Prim := dLeft (dRight (dRight unitPrim))

/-- The entrypoint record `b` of `tyS4` (id 1 in enumeration order, branch
`/R/L`). -/
def epB : Entrypoint := ⟨1, bs "b", "/R/L", unitTyNamed "b"⟩

/-- The `default`-named envelope with a `D_UNIT` value. -/
def pDefaultUnit : Parameters := ⟨bs "default", unitPrim⟩

/-- The empty-entrypoint envelope with a `D_UNIT` value. -/
def pEmptyUnit : Parameters := ⟨bs "", unitPrim⟩

mutual
/-- A value of the walker's labeled output (Go `interface{}`): null, booleans,
big integers, times, strings, raw prims, arrays, and labeled maps. -/
inductive MValue where
  | null
  | mbool (b : Bool)
  | big (i : Int)
  | time (t : Int)
  | str (s : GoStr)
  | prim (p : Prim)
  | arr (xs : MList)
  | map (m : MMap)
deriving DecidableEq, Repr

/-- A list of walker output values. -/
inductive MList where
  | nil
  | cons (v : MValue) (vs : MList)
deriving DecidableEq, Repr

/-- The walker's labeled map (Go `map[string]interface{}`), as an
insertion-ordered association list.  The Go map is unordered, but the code
observes it only through size and key lookup, which are order-independent. -/
inductive MMap where
  | nil
  | cons (k : GoStr) (v : MValue) (m : MMap)
deriving DecidableEq, Repr
end

def MMap.lookup : MMap → GoStr → Option MValue
  | .nil, _ => none
  | .cons k v rest, key => if k = key then some v else rest.lookup key

def MMap.length : MMap → Nat
  | .nil => 0
  | .cons _ _ rest => 1 + rest.length

/-- `m[k] = v` on the Go map: replace in place or append. -/
def MMap.insert : MMap → GoStr → MValue → MMap
  | .nil, k, v => .cons k v .nil
  | .cons k' v' rest, k, v =>
    if k' = k then .cons k v rest else .cons k' v' (rest.insert k v)

/-- `EMPTY_LABEL` from `micheline/value.go`: `@%%@`, an illegal annotation
value used as the no-label sentinel. -/
def emptyLabel : GoStr := bs "@%%@"

/-- Pop from the walker's value stack; the Go `Stack.Pop` returns the zero
`Prim` when empty. -/
def stackPop : List Prim → Prim × List Prim
  | [] => (zeroPrim, [])
  | p :: rest => (p, rest)

/-- `is_scalar`.  Modelled from the spec: structural predicate (§3, §4.4);
scalars are the payload leaf shapes and bare nullary applications. -/
def Prim.isScalar (p : Prim) : Bool :=
  match p.ptype with
  | .int | .string | .bytes | .nullary => true
  | _ => false

/-- `is_sequence`: the node is a sequence. -/
def Prim.isSequence (p : Prim) : Bool := p.ptype == .sequence

/-- `is_pair`.  Modelled from the spec: true for a pair application (`T_PAIR`
on types, `D_PAIR` on values, §4.4). -/
def Prim.isPair (p : Prim) : Bool := p.opCode == .T_PAIR || p.opCode == .D_PAIR

def Ty.isPair (t : Ty) : Bool := t.prim.isPair

def Ty.anno (t : Ty) : List GoStr := t.prim.anno

/-- Replace a node's annotation list. -/
def Prim.withAnno : Prim → List GoStr → Prim
  | .mk t op args _ i s b w, a => .mk t op args a i s b w

/-- Set a node's `was_packed` flag. -/
def Prim.withPacked : Prim → Bool → Prim
  | .mk t op args a i s b _, w => .mk t op args a i s b w

/-- `CanUnfold`: the value is a flattened n-ary comb pair.  Modelled from the
spec: §4.4's comb recognition (a pair with more than two arguments). -/
def Prim.canUnfold (val : Prim) (_ : Ty) : Bool :=
  val.isPair && val.args.length > 2

/-- The type's label.  Modelled from the spec: first `%`-annotation, falling
back to the first `@`-annotation, then empty (§4.4). -/
def Ty.label (t : Ty) : GoStr :=
  match fieldAnno t.prim with
  | some n => n
  | none =>
    match varAnno t.prim with
    | some n => n
    | none => []

/-- `GetVarAnnoAny`.  Modelled from the spec: the node's variable label
(`@`-annotation), falling back to any field label, then empty (§3). -/
def Prim.getVarAnnoAny (p : Prim) : GoStr :=
  match varAnno p with
  | some n => n
  | none =>
    match fieldAnno p with
    | some n => n
    | none => []

/-- Map a shape to the application shape with that argument count (used by the
type reconstruction below). -/
def shapeForCount (n : Nat) : PrimShape :=
  match n with
  | 0 => .nullary
  | 1 => .unary
  | 2 => .binary
  | _ => .variadicAnno

mutual
/-- `BuildType`.  Modelled from the spec: §4.4 — reconstruct a plausible type
for an untyped tree: `Int→T_INT`, `String→T_STRING`, `Bytes→T_BYTES`,
`D_ELT`-sequences→`T_MAP`, other sequences→`T_LIST` over the first element
type, `D_PAIR→T_PAIR`, `D_SOME/D_NONE→T_OPTION`, `D_LEFT/D_RIGHT→T_OR`;
annotations are dropped.  Cases the spec leaves open (`D_UNIT`, booleans,
anything else) default to the natural scalar type or `T_UNIT`. -/
def buildType : Prim → Prim
  | .mk .int _ _ _ _ _ _ _ => .mk .nullary .T_INT .nil [] 0 [] [] false
  | .mk .string _ _ _ _ _ _ _ => .mk .nullary .T_STRING .nil [] 0 [] [] false
  | .mk .bytes _ _ _ _ _ _ _ => .mk .nullary .T_BYTES .nil [] 0 [] [] false
  | .mk .sequence _ args _ _ _ _ _ =>
    (match args with
     | .cons (.mk _ .D_ELT (.cons k (.cons v .nil)) _ _ _ _ _) _ =>
       .mk .binary .T_MAP
         (.cons (buildType k) (.cons (buildType v) .nil)) [] 0 [] [] false
     | .cons p _ => .mk .unary .T_LIST (.cons (buildType p) .nil) [] 0 [] [] false
     | .nil => .mk .nullary .T_LIST .nil [] 0 [] [] false)
  | .mk _ op args _ _ _ _ _ =>
    match op with
    | .D_PAIR =>
      let ts := buildTypeList args
      .mk (shapeForCount ts.length) .T_PAIR ts [] 0 [] [] false
    | .D_SOME =>
      (match args with
       | .cons a _ => .mk .unary .T_OPTION (.cons (buildType a) .nil) [] 0 [] [] false
       | .nil => .mk .nullary .T_OPTION .nil [] 0 [] [] false)
    | .D_NONE => .mk .nullary .T_OPTION .nil [] 0 [] [] false
    | .D_LEFT | .D_RIGHT =>
      (match args with
       | .cons a _ => .mk .unary .T_OR (.cons (buildType a) .nil) [] 0 [] [] false
       | .nil => .mk .nullary .T_OR .nil [] 0 [] [] false)
    | .D_TRUE | .D_FALSE => .mk .nullary .T_BOOL .nil [] 0 [] [] false
    | _ => .mk .nullary .T_UNIT .nil [] 0 [] [] false

def buildTypeList : PrimList → PrimList
  | .nil => .nil
  | .cons p ps => .cons (buildType p) (buildTypeList ps)
end

/-- One-level alignment of a pair value's children against the type's
children.  Modelled from the spec: §4.4/§4.6 `UnfoldPair` — each direct child
that is itself a pair while the corresponding type argument is not is spliced
into its components. -/
def unfoldGo (targs : PrimList) : Nat → List Prim → List Prim
  | _, [] => []
  | i, v :: rest =>
    let t := targs.getD i zeroPrim
    (if !v.wasPacked && v.isPair && !t.isPair then v.args.toList else [v]) ++
      unfoldGo targs (i + 1) rest

/-- `UnfoldPair` (see `unfoldGo`). -/
def unfoldPair (val : Prim) (typ : Ty) : List Prim :=
  unfoldGo typ.prim.args 0 val.args.toList

/-- `TicketType`.  Modelled from the spec: a ticket is always
`Pair(address, Pair(value_type, int))` (§4.6). -/
def ticketType (t : Prim) : Ty :=
  ⟨.mk .binary .T_PAIR
    (.cons (.mk .nullary .T_ADDRESS .nil [] 0 [] [] false)
      (.cons (.mk .binary .T_PAIR
          (.cons t (.cons (.mk .nullary .T_INT .nil [] 0 [] [] false) .nil))
          [] 0 [] [] false) .nil))
    [] 0 [] [] false⟩

/-- Decimal digit value of an ASCII byte. -/
def digitVal (b : Nat) : Option Nat :=
  if 48 ≤ b ∧ b ≤ 57 then some (b - 48) else none

/-- Read exactly `k` decimal digits. -/
def readDigitsAux (k : Nat) (acc : Nat) (l : GoStr) : Option (Nat × GoStr) :=
  match k, l with
  | 0, l => some (acc, l)
  | _ + 1, [] => none
  | k + 1, b :: rest =>
    match digitVal b with
    | some d => readDigitsAux k (acc * 10 + d) rest
    | none => none

/-- Expect one byte. -/
def expectByte (c : Nat) : GoStr → Option GoStr
  | b :: rest => if b = c then some rest else none
  | [] => none

/-- Drop a leading run of decimal digits. -/
def dropDigits : GoStr → GoStr
  | [] => []
  | b :: rest => if (digitVal b).isSome then dropDigits rest else b :: rest

/-- Skip an optional fractional-seconds part (a dot followed by digits). -/
def skipFrac : GoStr → GoStr
  | 46 :: b :: rest =>
    if (digitVal b).isSome then dropDigits (b :: rest) else 46 :: b :: rest
  | l => l

/-- Days from the civil epoch for a proleptic Gregorian date (the standard
era-based formula, written for truncating integer division). -/
def daysFromCivil (y : Int) (m d : Nat) : Int :=
  let y2 := if m ≤ 2 then y - 1 else y
  let era := (if 0 ≤ y2 then y2 else y2 - 399) / 400
  let yoe := (y2 - era * 400).toNat
  let mp := if 2 < m then m - 3 else m + 9
  let doy := (153 * mp + 2) / 5 + d - 1
  let doe := yoe * 365 + yoe / 4 - yoe / 100 + doy
  era * 146097 + (doe : Int) - 719468

/-- Parse the timezone suffix: `Z` or a `±HH:MM` offset, returning the offset
in seconds. -/
def parseZone : GoStr → Option (Int × GoStr)
  | 90 :: rest => some ((0 : Int), rest)
  | 43 :: rest =>
    (match readDigitsAux 2 0 rest with
     | none => none
     | some (oh, q1) =>
       match expectByte 58 q1 with
       | none => none
       | some q2 =>
         match readDigitsAux 2 0 q2 with
         | none => none
         | some (om, q3) =>
           if oh ≤ 23 ∧ om ≤ 59 then some (((oh * 3600 + om * 60 : Nat) : Int), q3) else none)
  | 45 :: rest =>
    (match readDigitsAux 2 0 rest with
     | none => none
     | some (oh, q1) =>
       match expectByte 58 q1 with
       | none => none
       | some q2 =>
         match readDigitsAux 2 0 q2 with
         | none => none
         | some (om, q3) =>
           if oh ≤ 23 ∧ om ≤ 59 then some (-((oh * 3600 + om * 60 : Nat) : Int), q3) else none)
  | _ => none

/-- Strict RFC-3339 timestamp parsing to Unix seconds.  Modelled from the
grammar Go's `time.Parse` accepts under the RFC-3339 reference layout:
`YYYY-MM-DDTHH:MM:SS`, optional fractional seconds (ignored), then `Z` or a
`±HH:MM` offset, consuming the whole input; calendar day validation is
simplified to `1..31`. -/
def parseRFC3339 (s : GoStr) : Option Int :=
  match readDigitsAux 4 0 s with
  | none => none
  | some (y, r1) =>
  match expectByte 45 r1 with
  | none => none
  | some r2 =>
  match readDigitsAux 2 0 r2 with
  | none => none
  | some (mo, r3) =>
  match expectByte 45 r3 with
  | none => none
  | some r4 =>
  match readDigitsAux 2 0 r4 with
  | none => none
  | some (d, r5) =>
  match expectByte 84 r5 with
  | none => none
  | some r6 =>
  match readDigitsAux 2 0 r6 with
  | none => none
  | some (h, r7) =>
  match expectByte 58 r7 with
  | none => none
  | some r8 =>
  match readDigitsAux 2 0 r8 with
  | none => none
  | some (mi, r9) =>
  match expectByte 58 r9 with
  | none => none
  | some r10 =>
  match readDigitsAux 2 0 r10 with
  | none => none
  | some (sec, r11) =>
  match parseZone (skipFrac r11) with
  | none => none
  | some (offSec, r13) =>
    if r13 = [] ∧ 1 ≤ mo ∧ mo ≤ 12 ∧ 1 ≤ d ∧ d ≤ 31 ∧ h ≤ 23 ∧ mi ≤ 59 ∧ sec ≤ 59 then
      some (daysFromCivil (y : Int) mo d * 86400 +
        ((h * 3600 + mi * 60 + sec : Nat) : Int) - offSec)
    else none

/-- The RFC-3339 reference layout constant `time.RFC3339`. -/
def rfc3339Layout : GoStr := bs "2006-01-02T15:04:05Z07:00"

/-- Unix seconds of Go's zero `time.Time` (January 1, year 1, UTC). -/
def timeZero : Int := -62135596800

/-- Modelled from the Go standard library `time.Parse(layout, value)`, at the
argument shapes reachable in this file only: with the RFC-3339 reference
layout as the layout it parses the value as RFC-3339.  `GetTime` instead
passes its arguments reversed, using a found timestamp string as the layout
and the reference layout constant as the value; Go then tokenizes the
timestamp's digit groups as reference-date tokens (for example `02` inside
`2020`) which fail to match the reference value, so parsing fails.  Every
layout other than the reference layout is therefore modelled as failing. -/
def goTimeParse (layout value : GoStr) : Option Int :=
  if layout = rfc3339Layout then parseRFC3339 value else none

/-- Scalar rendering `Prim.Value(as OpCode)`.  Modelled from the spec: the
type-directed scalar reader of §4.6 — strings verbatim, big integers for the
numeric types, booleans from `D_TRUE`/`D_FALSE`, bytes as lowercase hex,
timestamps from RFC-3339 or seconds-since-epoch; the address-codec kinds pass
strings through and render bytes as hex; all remaining kinds are returned as
the raw prim. -/
def primValue (p : Prim) (a : OpCode) : MValue :=
  match a with
  | .T_STRING => .str p.strVal
  | .T_INT | .T_NAT | .T_MUTEZ => .big p.intVal
  | .T_BOOL => .mbool (p.opCode == .D_TRUE)
  | .T_BYTES => .str (hexBytes p.bytesVal)
  | .T_TIMESTAMP =>
    (match p.ptype with
     | .string =>
       (match parseRFC3339 p.strVal with
        | some t => .time t
        | none => .str p.strVal)
     | .int => .time p.intVal
     | _ => .prim p)
  | .T_ADDRESS | .T_KEY | .T_KEY_HASH | .T_SIGNATURE | .T_CONTRACT | .T_CHAIN_ID =>
    (match p.ptype with
     | .string => .str p.strVal
     | _ => .str (hexBytes p.bytesVal))
  | _ => .prim p

/-- `NewKey(typ, prim).String()`.  Modelled from the spec: the key formatter
of §4.6 — integers as decimal, bytes as hex, strings verbatim, booleans as
`true`/`false`; unsupported key types fail. -/
def newKey (ty : Ty) (p : Prim) : Except Err GoStr :=
  match ty.opCode with
  | .T_STRING => .ok p.strVal
  | .T_INT | .T_NAT | .T_MUTEZ | .T_TIMESTAMP => .ok (intDecimal p.intVal)
  | .T_BYTES => .ok (hexBytes p.bytesVal)
  | .T_BOOL => .ok (if p.opCode == .D_TRUE then bs "true" else bs "false")
  | .T_ADDRESS | .T_KEY_HASH | .T_KEY =>
    .ok (match p.ptype with
         | .string => p.strVal
         | _ => hexBytes p.bytesVal)
  | _ => .error (.badKey ty.opCode)

/-- The walker-loop body over set elements (`T_SET` case of `walkTree`):
scalar elements are rendered directly, complex elements are walked into a
fresh map. -/
def walkSetElems (rec1 : MMap → GoStr → Ty → List Prim → Except Err (MMap × List Prim))
    (elemTy : Prim) : List Prim → Except Err MList
  | [] => .ok .nil
  | v :: rest =>
    match
      (if v.isScalar && !v.isSequence then .ok (primValue v elemTy.opCode)
       else
         match rec1 .nil emptyLabel ⟨elemTy⟩ [v] with
         | .ok (mm, _) => .ok (.map mm)
         | .error e => .error e : Except Err MValue) with
    | .ok x =>
      match walkSetElems rec1 elemTy rest with
      | .ok xs => .ok (.cons x xs)
      | .error e => .error e
    | .error e => .error e

/-- The walker-loop body over list elements (`T_LIST` case of `walkTree`):
each element is walked into a fresh map, with single-entry `"0"` maps
lifted. -/
def walkListElems (rec1 : MMap → GoStr → Ty → List Prim → Except Err (MMap × List Prim))
    (targs : PrimList) : Nat → List Prim → Except Err MList
  | _, [] => .ok .nil
  | i, v :: rest =>
    let valType := if i < targs.length then targs.getD i zeroPrim else targs.getD 0 zeroPrim
    match rec1 .nil emptyLabel ⟨valType⟩ [v] with
    | .ok (mm, _) =>
      let x : MValue :=
        match mm with
        | .cons k mv .nil => if k = bs "0" then mv else .map mm
        | _ => .map mm
      match walkListElems rec1 targs (i + 1) rest with
      | .ok xs => .ok (.cons x xs)
      | .error e => .error e
    | .error e => .error e

/-- The walker-loop body over `Elt` sequences (`T_MAP`/`T_BIG_MAP` case of
`walkTree`). -/
def walkMapElems (rec1 : MMap → GoStr → Ty → List Prim → Except Err (MMap × List Prim))
    (keyT valT : Prim) (tOp : OpCode) : List Prim → MMap → Except Err MMap
  | [], mm => .ok mm
  | v :: rest, mm =>
    if v.opCode ≠ .D_ELT then .error (.badEltItem v.ptype v.opCode tOp)
    else
      let keyType := if (v.args.getD 0 zeroPrim).wasPacked then
        Ty.mk (buildType (v.args.getD 0 zeroPrim)) else Ty.mk keyT
      let valType := if (v.args.getD 1 zeroPrim).wasPacked then
        Ty.mk (buildType (v.args.getD 1 zeroPrim)) else Ty.mk valT
      match newKey keyType (v.args.getD 0 zeroPrim) with
      | .error e => .error e
      | .ok key =>
        match rec1 mm key valType [v.args.getD 1 zeroPrim] with
        | .ok (mm2, _) => walkMapElems rec1 keyT valT tOp rest mm2
        | .error e => .error e

/-- The walker loop over a pair type's arguments (`T_PAIR` case of
`walkTree`), threading the shared value stack through the children. -/
def walkPairArgs (rec1 : MMap → GoStr → Ty → List Prim → Except Err (MMap × List Prim)) :
    List Prim → MMap → List Prim → Except Err (MMap × List Prim)
  | [], mm, stack => .ok (mm, stack)
  | t :: ts, mm, stack =>
    match rec1 mm emptyLabel ⟨t⟩ stack with
    | .ok (mm2, stack2) => walkPairArgs rec1 ts mm2 stack2
    | .error e => .error e

/-- `walkTree` translated from `micheline/value.go`, with an explicit fuel
argument driving the recursion.  The Go function aborts whenever `lvl > 99`
and every recursive call increments `lvl`, so `101 - lvl` units of fuel always
suffice; fuel can reach zero only at `lvl ≥ 101 > 99`, where it reports the
same max-depth error the Go code would.  The walker returns the updated map
and the updated shared value stack (the Go function mutates both through
pointers). -/
def walkTreeF : Nat → MMap → GoStr → Ty → List Prim → Nat → Except Err (MMap × List Prim)
  | 0, _, _, _, _, _ => .error .maxDepth
  | f + 1, m, label0, typ0, stack0, lvl =>
    if lvl > 99 then .error .maxDepth
    else
      let rec1 : MMap → GoStr → Ty → List Prim → Except Err (MMap × List Prim) :=
        fun m2 l2 t2 s2 => walkTreeF f m2 l2 t2 s2 (lvl + 1)
      -- take next value from stack
      let vs1 := stackPop stack0
      -- unfold unexpected pairs
      let vs : Prim × List Prim :=
        if !vs1.1.wasPacked && vs1.1.isPair && !typ0.isPair then
          stackPop (unfoldPair vs1.1 typ0 ++ vs1.2)
        else vs1
      let val := vs.1
      let stack := vs.2
      -- detect type for unpacked values
      let typ : Ty :=
        if val.wasPacked && (!val.isScalar || typ0.opCode == .T_BYTES) then
          ⟨((buildType val).withPacked true).withAnno typ0.anno⟩
        else typ0
      -- make sure value + type match up
      if !typ.isPair && !val.isSequence && !val.matchOpCode typ.opCode then
        .error (.typeMismatch typ.opCode val.ptype val.opCode)
      else
        -- get the label from our type tree
        let typeLabel := typ.label
        let haveTypeLabel := !typeLabel.isEmpty
        let haveKeyLabel := label0 ≠ emptyLabel ∧ ¬ label0.isEmpty
        let label :=
          if label0 = emptyLabel then
            if haveTypeLabel then typeLabel else natDecimal m.length
          else label0
        match typ.opCode with
        | .T_SET =>
          (match walkSetElems rec1 (typ.args.getD 0 zeroPrim) val.args.toList with
           | .ok arr => .ok (m.insert label (.arr arr), stack)
           | .error e => .error e)
        | .T_LIST =>
          (match walkListElems rec1 typ.args 0 val.args.toList with
           | .ok arr => .ok (m.insert label (.arr arr), stack)
           | .error e => .error e)
        | .T_LAMBDA => .ok (m.insert label (.prim val), stack)
        | .T_MAP | .T_BIG_MAP =>
          if typ.opCode == .T_BIG_MAP && val.args.length == 0 then
            (match val.ptype with
             | .int => .ok (m.insert label (primValue val .T_INT), stack)
             | .sequence => .ok (m.insert label .null, stack)
             | _ => .ok (m, stack))
          else
            (match val.ptype with
             | .binary =>
               -- single ELT
               let keyType := if (val.args.getD 0 zeroPrim).wasPacked then
                 Ty.mk (buildType (val.args.getD 0 zeroPrim))
                 else Ty.mk (typ.args.getD 0 zeroPrim)
               let valType := if (val.args.getD 1 zeroPrim).wasPacked then
                 Ty.mk (buildType (val.args.getD 1 zeroPrim))
                 else Ty.mk (typ.args.getD 1 zeroPrim)
               (match newKey keyType (val.args.getD 0 zeroPrim) with
                | .error e => .error e
                | .ok key =>
                  match rec1 .nil key valType [val.args.getD 1 zeroPrim] with
                  | .ok (mm, _) => .ok (m.insert label (.map mm), stack)
                  | .error e => .error e)
             | .sequence =>
               (match walkMapElems rec1 (typ.args.getD 0 zeroPrim)
                   (typ.args.getD 1 zeroPrim) typ.opCode val.args.toList .nil with
                | .ok mm => .ok (m.insert label (.map mm), stack)
                | .error e => .error e)
             | _ => .error (.badEltSeq val.ptype val.opCode typ.opCode))
        | .T_PAIR =>
          let mm : MMap := if haveTypeLabel || haveKeyLabel then .nil else m
          let stack2 :=
            if val.isPair && !typ.isPair then unfoldPair val typ ++ stack
            else if val.canUnfold typ then val.args.toList ++ stack
            else val :: stack
          (match walkPairArgs rec1 typ.args.toList mm stack2 with
           | .error e => .error e
           | .ok (mm2, stack3) =>
             if haveTypeLabel || haveKeyLabel then .ok (m.insert label (.map mm2), stack3)
             else .ok (mm2, stack3))
        | .T_OPTION =>
          (match val.opCode with
           | .D_NONE => .ok (m.insert label .null, stack)
           | .D_SOME =>
             if val.isScalar || label = (typ.args.getD 0 zeroPrim).getVarAnnoAny then
               (match rec1 m label ⟨typ.args.getD 0 zeroPrim⟩ [val.args.getD 0 zeroPrim] with
                | .ok (m2, _) => .ok (m2, stack)
                | .error e => .error e)
             else
               (match rec1 .nil emptyLabel ⟨typ.args.getD 0 zeroPrim⟩
                   [val.args.getD 0 zeroPrim] with
                | .ok (mm, _) => .ok (m.insert label (.map mm), stack)
                | .error e => .error e)
           | _ => .error (.badOptionCode val.opCode))
        | .T_OR =>
          let inner : Except Err MMap :=
            match val.opCode with
            | .D_LEFT =>
              if !(haveTypeLabel || haveKeyLabel) then
                match rec1 .nil emptyLabel ⟨typ.args.getD 0 zeroPrim⟩
                    [val.args.getD 0 zeroPrim] with
                | .ok (mmm, _) =>
                  .ok (match mmm with
                       | .cons n v .nil =>
                         if n = bs "0" then .cons (bs "@or_0") v .nil else .cons n v .nil
                       | _ => .cons (bs "@or_0") (.map mmm) .nil)
                | .error e => .error e
              else
                match rec1 .nil emptyLabel ⟨typ.args.getD 0 zeroPrim⟩
                    [val.args.getD 0 zeroPrim] with
                | .ok (mm, _) => .ok mm
                | .error e => .error e
            | .D_RIGHT =>
              if !(haveTypeLabel || haveKeyLabel) then
                match rec1 .nil emptyLabel ⟨typ.args.getD 1 zeroPrim⟩
                    [val.args.getD 0 zeroPrim] with
                | .ok (mmm, _) =>
                  .ok (match mmm with
                       | .cons n v .nil =>
                         if n = bs "0" then .cons (bs "@or_1") v .nil else .cons n v .nil
                       | _ => .cons (bs "@or_1") (.map mmm) .nil)
                | .error e => .error e
              else
                match rec1 .nil emptyLabel ⟨typ.args.getD 1 zeroPrim⟩
                    [val.args.getD 0 zeroPrim] with
                | .ok (mm, _) => .ok mm
                | .error e => .error e
            | _ => .error (.badOrBranch val.opCode)
          (match inner with
           | .error e => .error e
           | .ok mm =>
             -- lift anon content
             let out : MValue :=
               match mm with
               | .cons k v .nil => if k = bs "0" then v else .map mm
               | _ => .map mm
             .ok (m.insert label out, stack))
        | .T_TICKET =>
          rec1 m label (ticketType (typ.args.getD 0 zeroPrim)) (val :: stack)
        | .T_SAPLING_STATE =>
          (match rec1 .nil (bs "memo_size") ⟨.mk .nullary .T_INT .nil [] 0 [] [] false⟩
              [typ.args.getD 0 zeroPrim] with
           | .error e => .error e
           | .ok (mm1, _) =>
             match rec1 mm1 (bs "content") ⟨buildType val⟩ [val] with
             | .error e => .error e
             | .ok (mm2, _) => .ok (m.insert label (.map mm2), stack))
        | _ =>
          -- scalar and remaining types; unpack stray sequences first
          let vsB : Prim × List Prim :=
            if val.isSequence then stackPop (val.args.toList ++ stack) else (val, stack)
          if vsB.1.isScalar then .ok (m.insert label (primValue vsB.1 typ.opCode), vsB.2)
          else
            (match rec1 .nil emptyLabel typ [vsB.1] with
             | .ok (mm, _) => .ok (m.insert label (.map mm), vsB.2)
             | .error e => .error e)

/-- `walkTree` at the Go signature: fuel instantiated from the nesting level
(see `walkTreeF`). -/
def walkTree (m : MMap) (label : GoStr) (typ : Ty) (stack : List Prim) (lvl : Nat) :
    Except Err (MMap × List Prim) :=
  walkTreeF (101 - lvl) m label typ stack lvl

/-- The `Value` wrapper from `micheline/value.go`: a type, a value prim, the
render policy, and the memoized labeled map. -/
structure Value where
  typ : Ty
  val : Prim
  render : Nat
  mapped : Option MValue
deriving Repr, DecidableEq

/-- `NewValue` (the Go constructor clones both prims; values here are
immutable, so `Clone` is the identity). -/
def newValue (t : Ty) (v : Prim) : Value :=
  ⟨t, v, 0, none⟩

/-- The scalar lift at the end of `Value.Map`: a single entry under the key
`"0"` is returned bare, any other walk output as the map itself. -/
def liftMap (m : MMap) : MValue :=
  match m with
  | .cons k v .nil => if k = bs "0" then v else .map m
  | _ => .map m

/-- `Value.Map` translated from `micheline/value.go`: memoized; walks the
(type, value) pair from level 0 and lifts a single `"0"`-keyed entry
(`liftMap`).  The Go method mutates `e.mapped` (an `interface{}` field)
through its pointer receiver; here the updated `Value` is returned alongside
the result.  The memo guard is `e.mapped != nil`: when the lifted value is
itself the nil interface (a walk output `{"0": nil}`), the assignment
`e.mapped = v` stores nil and the guard remains false — `mapped` is `none`
exactly when the field holds the nil interface, so storing a nil lift leaves
it `none`. -/
def Value.mapFn (e : Value) : Except Err MValue × Value :=
  match e.mapped with
  | some m => (.ok m, e)
  | none =>
    match walkTree .nil emptyLabel e.typ [e.val] 0 with
    | .error err => (.error err, e)
    | .ok (m, _) =>
      let lifted : MValue := liftMap m
      (.ok lifted,
        { e with mapped := if lifted = MValue.null then none else some lifted })

/-- Byte-wise lexicographic order on keys (Go's `json.Marshal` sorts map keys
in this order). -/
def lexLe : GoStr → GoStr → Bool
  | [], _ => true
  | _ :: _, [] => false
  | a :: as2, b :: bs2 => if a < b then true else if b < a then false else lexLe as2 bs2

def insertField (f : GoStr × Json) : List (GoStr × Json) → List (GoStr × Json)
  | [] => [f]
  | g :: rest => if lexLe f.1 g.1 then f :: g :: rest else g :: insertField f rest

def sortFields (l : List (GoStr × Json)) : List (GoStr × Json) :=
  l.foldr insertField []

/-- Zero-padded decimal rendering. -/
def padNum (w n : Nat) : GoStr :=
  let d := natDecimal n
  List.replicate (w - d.length) 48 ++ d

/-- RFC-3339 rendering of a Unix timestamp in UTC (the JSON form of a Go
`time.Time`; cosmetic only — no claim inspects it). -/
def formatRFC3339 (t : Int) : GoStr :=
  let days := Int.fdiv t 86400
  let sod := (t - days * 86400).toNat
  let z := days + 719468
  let era := Int.fdiv z 146097
  let doe := (z - era * 146097).toNat
  let yoe := (doe - doe / 1460 + doe / 36524 - doe / 146096) / 365
  let doy := doe - (365 * yoe + yoe / 4 - yoe / 100)
  let mp := (5 * doy + 2) / 153
  let d := doy - (153 * mp + 2) / 5 + 1
  let mo := if mp < 10 then mp + 3 else mp - 9
  let y2 := (yoe : Int) + era * 400 + (if mo ≤ 2 then 1 else 0)
  (if y2 < 0 then [45] else []) ++ padNum 4 y2.natAbs ++ [45] ++ padNum 2 mo ++ [45] ++
    padNum 2 d ++ [84] ++ padNum 2 (sod / 3600) ++ [58] ++ padNum 2 (sod / 60 % 60) ++
    [58] ++ padNum 2 (sod % 60) ++ [90]

mutual
/-- JSON encoding of walker output (Go `json.Marshal` of the mapped
`interface{}` tree): maps become key-sorted objects, big integers bare
numbers, times RFC-3339 strings. -/
def jsonOfMValue : MValue → Json
  | .null => .null
  | .mbool b => .jbool b
  | .big i => .num i
  | .time t => .str (formatRFC3339 t)
  | .str s => .str s
  | .prim p => jsonOfPrim p
  | .arr xs => .arr (jsonOfMList xs)
  | .map m => .obj (sortFields (jsonOfMMap m))

def jsonOfMList : MList → List Json
  | .nil => []
  | .cons v vs => jsonOfMValue v :: jsonOfMList vs

def jsonOfMMap : MMap → List (GoStr × Json)
  | .nil => []
  | .cons k v rest => (k, jsonOfMValue v) :: jsonOfMMap rest
end

/-- The message text of an error, as `err.Error()` would produce it (the
formatted dumps of the Go messages are abbreviated to their fixed prefixes; no
claim inspects message contents). -/
def errMessage : Err → GoStr
  | .maxDepth => bs "micheline: max nesting level reached"
  | .typeMismatch _ _ _ => bs "micheline: type mismatch"
  | .badEltItem _ _ _ => bs "micheline: unexpected type for Elt item"
  | .badEltSeq _ _ _ => bs "micheline: unexpected type for Elt sequence"
  | .badOptionCode _ => bs "micheline: unexpected T_OPTION code"
  | .badOrBranch _ => bs "micheline: unexpected T_OR branch"
  | .badKey _ => bs "micheline: unsupported key type"
  | .missingEntrypoint _ => bs "micheline: missing entrypoint"
  | .missingEntrypointRebase _ _ => bs "micheline: missing entrypoint"
  | .shortBuffer => bs "short buffer"
  | .invalidTag _ => bs "micheline: invalid tag"
  | .malformedInt => bs "micheline: malformed integer"

/-- The result of `Value.MarshalJSON`: normal output, output together with a
returned error, or a panic. -/
inductive MarshalOut where
  | ok (j : Json)
  | failed (j : Json) (e : Err)
  | panicked (e : Err)

/-- The error envelope `Value.MarshalJSON` builds on a failed walk: the
error message plus the type and value prim trees. -/
def errEnvelope (e : Value) (err : Err) : Json :=
  Json.obj [(bs "error", Json.obj
    [(bs "message", .str (errMessage err)),
     (bs "type", jsonOfPrim e.typ.prim),
     (bs "value", jsonOfPrim e.val)])]

/-- `Value.MarshalJSON` translated from `micheline/value.go`: on success the
JSON of the labeled map; on a walk error, the `errEnvelope` is built and the
render policy decides — `RENDER_TYPE_FAIL` (1) returns the envelope plus the
error, `RENDER_TYPE_PANIC` (2) panics, and every other value (the default
case, including `RENDER_TYPE_PRIM` = 0) logs and emits the raw prim tree. -/
def Value.marshalJSON (e : Value) : MarshalOut :=
  match (Value.mapFn e).1 with
  | .ok m => .ok (jsonOfMValue m)
  | .error err =>
    match e.render with
    | 1 => .failed (errEnvelope e err) err
    | 2 => .panicked err
    | _ => .ok (jsonOfPrim e.val)

/-- `getPath` descent.  Modelled from the spec: a slash-delimited path into
the labeled map (§6). -/
def getPathGo : List GoStr → MValue → Option MValue
  | [], v => some v
  | s :: rest, v =>
    match v with
    | .map entries =>
      (match entries.lookup s with
       | some vv => getPathGo rest vv
       | none => none)
    | _ => none

/-- `getPath(m, label)`. -/
def getPath (v : MValue) (label : GoStr) : Option MValue :=
  getPathGo (splitByte 47 label) v

/-- `strconv.ParseInt(s, 10, 64)`: optional sign, decimal digits, 64-bit
range check. -/
def parseInt64 (s : GoStr) : Option Int :=
  let core : GoStr → Option Nat := fun l =>
    match l with
    | [] => none
    | _ =>
      l.foldl (fun acc b =>
        match acc, digitVal b with
        | some n, some d => some (n * 10 + d)
        | _, _ => none) (some 0)
  match s with
  | 43 :: rest =>
    (core rest).bind fun n =>
      if (n : Int) ≤ 9223372036854775807 then some (n : Int) else none
  | 45 :: rest =>
    (core rest).bind fun n =>
      if (n : Int) ≤ 9223372036854775808 then some (-(n : Int)) else none
  | _ =>
    (core s).bind fun n =>
      if (n : Int) ≤ 9223372036854775807 then some (n : Int) else none

/-- `big.Int.SetString(s, 10)`: optional sign, nonempty decimal digits,
unbounded. -/
def parseBigDec (s : GoStr) : Option Int :=
  let core : GoStr → Option Nat := fun l =>
    match l with
    | [] => none
    | _ =>
      l.foldl (fun acc b =>
        match acc, digitVal b with
        | some n, some d => some (n * 10 + d)
        | _, _ => none) (some 0)
  match s with
  | 43 :: rest => (core rest).map (fun n => (n : Int))
  | 45 :: rest => (core rest).map (fun n => -(n : Int))
  | _ => (core s).map (fun n => (n : Int))

/-- `strconv.ParseBool`: exactly the Go-accepted literals. -/
def parseBool (s : GoStr) : Option Bool :=
  if s ∈ [bs "1", bs "t", bs "T", bs "true", bs "TRUE", bs "True"] then some true
  else if s ∈ [bs "0", bs "f", bs "F", bs "false", bs "FALSE", bs "False"] then some false
  else none

/-- Go `big.Int.Int64`: low 64 bits, two's complement (officially undefined
out of range; this is what the implementation computes). -/
def int64of (t : Int) : Int :=
  ((t + 9223372036854775808).emod 18446744073709551616) - 9223372036854775808

/-- `Value.GetTime` translated from `micheline/value.go`.  Note the reversed
arguments in the string case: the Go code calls `time.Parse(t, time.RFC3339)`,
passing the found string as the layout and the layout constant as the value. -/
def Value.getTime (v : Value) (label : GoStr) : Int × Bool :=
  match (Value.mapFn v).1 with
  | .ok m =>
    (match getPath m label with
     | some vv =>
       (match vv with
        | .null => (timeZero, true)
        | .time t => (t, true)
        | .str s =>
          (match goTimeParse s rfc3339Layout with
           | some b => (b, true)
           | none => (timeZero, false))
        | _ => (timeZero, false))
     | none => (timeZero, false))
  | .error _ => (timeZero, false)

/-- `Value.GetInt64` translated from `micheline/value.go`. -/
def Value.getInt64 (v : Value) (label : GoStr) : Int × Bool :=
  match (Value.mapFn v).1 with
  | .ok m =>
    (match getPath m label with
     | some vv =>
       (match vv with
        | .null => (0, true)
        | .big t => (int64of t, true)
        | .str s =>
          (match parseInt64 s with
           | some i => (i, true)
           | none => (0, false))
        | _ => (0, false))
     | none => (0, false))
  | .error _ => (0, false)

/-- `Value.GetBig` translated from `micheline/value.go` (`none` models the
`nil` big-integer pointer the failure paths return). -/
def Value.getBig (v : Value) (label : GoStr) : Option Int × Bool :=
  match (Value.mapFn v).1 with
  | .ok m =>
    (match getPath m label with
     | some vv =>
       (match vv with
        | .null => (some 0, true)
        | .big t => (some t, true)
        | .str s =>
          (match parseBigDec s with
           | some i => (some i, true)
           | none => (none, false))
        | _ => (none, false))
     | none => (none, false))
  | .error _ => (none, false)

/-- `Value.GetBool` translated from `micheline/value.go`. -/
def Value.getBool (v : Value) (label : GoStr) : Bool × Bool :=
  match (Value.mapFn v).1 with
  | .ok m =>
    (match getPath m label with
     | some vv =>
       (match vv with
        | .null => (false, true)
        | .mbool t => (t, true)
        | .str s =>
          (match parseBool s with
           | some b => (b, true)
           | none => (false, false))
        | _ => (false, false))
     | none => (false, false))
  | .error _ => (false, false)

/-- A `nat` type leaf. -/
def natTyPrim : Prim := .mk .nullary .T_NAT .nil [] 0 [] [] false

/-- An `option` type node. -/
def optTy (t : Prim) : Prim := .mk .unary .T_OPTION (.cons t .nil) [] 0 [] [] false

/-- A `D_SOME` value node. -/
def someVal (v : Prim) : Prim := .mk .unary .D_SOME (.cons v .nil) [] 0 [] [] false

/-- An `n`-fold `option` tower over `nat`. -/
def optTower : Nat → Prim
  | 0 => natTyPrim
  | n + 1 => optTy (optTower n)

/-- An `n`-fold `Some` tower over `0`. -/
def someTower : Nat → Prim
  | 0 => intPrim 0
  | n + 1 => someVal (someTower n)

/-- The RFC-3339 timestamp string of the `GetTime` scenario. -/
def tsBytes : GoStr := bs "2020-01-01T00:00:00Z"

/-- A `string %t` type leaf. -/
def strTyT : Prim := .mk .nullaryAnno .T_STRING .nil [bs "%t"] 0 [] [] false

/-- A `Value` binding label `t` to the RFC-3339 string (used by the map and
getter scenarios). -/
def vStrT : Value := newValue ⟨strTyT⟩ (strPrim tsBytes)

/-- The labeled map of `vStrT`. -/
def mStrT : MValue := .map (.cons (bs "t") (.str tsBytes) .nil)

/-- `vStrT` after a successful `Map()` memoized the labeled map. -/
def vStrT' : Value := { vStrT with mapped := some mStrT }

/-- An `option nat %x` type with a `D_NONE` value: its map binds `x` to
null. -/
def vNoneX : Value :=
  newValue ⟨.mk .unaryAnno .T_OPTION (.cons natTyPrim .nil) [bs "%x"] 0 [] [] false⟩
    (.mk .nullary .D_NONE .nil [] 0 [] [] false)

/-- The labeled map of `vNoneX`. -/
def mNoneX : MValue := .map (.cons (bs "x") .null .nil)

/-- An unannotated `option nat` type with a `D_NONE` value: its walk yields
the single-entry map binding `"0"` to null, so the lift produces the nil
interface. -/
def vNonePlain : Value :=
  newValue ⟨.mk .unary .T_OPTION (.cons natTyPrim .nil) [] 0 [] [] false⟩
    (.mk .nullary .D_NONE .nil [] 0 [] [] false)

/-- A `Value` that fails its walk: type `unit`, value `Int 5`. -/
def vMismatch (render : Nat) : Value :=
  ⟨⟨.mk .nullary .T_UNIT .nil [] 0 [] [] false⟩, intPrim 5, render, none⟩

/-- Render policy constant from `micheline/value.go`: emit the raw prim on a
failed walk. -/
def RENDER_TYPE_PRIM : Nat := 0

/-- Render policy constant from `micheline/value.go`: return the error on a
failed walk. -/
def RENDER_TYPE_FAIL : Nat := 1

/-- Render policy constant from `micheline/value.go`: panic on a failed
walk. -/
def RENDER_TYPE_PANIC : Nat := 2

end Micheline

namespace Micheline

/-- Helper: `matchOpCode` only depends on the shape and opcode projections, and
equals the spec table extended by the permissive default for unlisted
application opcodes. -/
theorem matchOpCode_core :
    ∀ (sh : PrimShape) (vop toc : OpCode),
      Prim.matchOpCode (.mk sh vop .nil [] 0 [] [] false) toc =
        (specCompat sh vop toc || (sh.isApp && !listedDataOp vop)) := by
  decide

/-- Claim C2 (amended): `matchOpCode` returns true exactly for the §4.6.1
table combinations, or for an application-shaped value whose opcode is not one
of `D_PAIR`, `D_SOME`, `D_NONE`, `D_UNIT`, `D_LEFT`, `D_RIGHT`: such values
match every type opcode, because the inner switch over the value opcode has no
default case and leaves the mismatch flag unset. -/
theorem c2_matchOpCode_amended :
    ∀ (p : Prim) (oc : OpCode),
      p.matchOpCode oc =
        (specCompat p.ptype p.opCode oc || (p.ptype.isApp && !listedDataOp p.opCode)) := by
  intro p oc
  cases p with
  | mk t op args anno i s b w => exact matchOpCode_core t op oc

/-- Claim C2 counterexample: the claim says an application value whose opcode
is not one of the six data constructors inspected by the check — such as
`D_TRUE` — mismatches every type opcode; in fact `matchOpCode` accepts
`D_TRUE` against `T_BOOL` (and against every other type opcode), a combination
absent from the §4.6.1 table. -/
theorem c2_matchOpCode_counterexample :
    dTruePrim.matchOpCode .T_BOOL = true ∧
      specCompat PrimShape.nullary .D_TRUE .T_BOOL = false := by
  decide

/-- Claim C1 (amended): a named entrypoint found directly in the entrypoint
table resolves to that entrypoint with the envelope's value returned unchanged
as the payload — no `D_LEFT`/`D_RIGHT` wrappers are peeled on this path.  In
particular `map_entrypoint({entrypoint:"b", value:D_UNIT})` on the S4 type
returns entrypoint `b` with payload `Unit`, while a value of
`Left(Right(Right(Unit)))` is returned wrapped as it is. -/
theorem c1_mapEntrypoint_amended :
    ∀ (p : Parameters) (typ : Ty) (ep : Entrypoint),
      p.entrypoint ≠ bs "default" → p.entrypoint ≠ bs "root" → p.entrypoint ≠ bs "" →
      epsFindName (entrypointsFn typ true) p.entrypoint = some ep →
      p.mapEntrypoint typ = .ok (ep, p.value) := by
  intro p typ ep hd hr he hfind
  unfold Parameters.mapEntrypoint
  rw [if_neg hd, if_neg (by push_neg; exact ⟨hr, he⟩), hfind]

/-- Claim C1 witness: on the S4 type `or (unit %a) (or (unit %b) (unit %c))`,
calling with entrypoint `b` and the bare payload `Unit` yields entrypoint `b`
(branch `/R/L`) with payload `Unit`. -/
theorem c1_mapEntrypoint_witness :
    Parameters.mapEntrypoint ⟨bs "b", unitPrim⟩ tyS4 = .ok (epB, unitPrim) :=
  c1_mapEntrypoint_amended ⟨bs "b", unitPrim⟩ tyS4 epB
    (by decide) (by decide) (by decide) (by decide)

/-- Claim C1 counterexample: with entrypoint `b` and value
`Left(Right(Right(Unit)))` — the claim's input — `MapEntrypoint` returns the
value itself as the payload, not the unwrapped `Unit`: the named-lookup path
does not peel `D_LEFT`/`D_RIGHT` wrappers. -/
theorem c1_mapEntrypoint_counterexample :
    Parameters.mapEntrypoint ⟨bs "b", lrrUnit⟩ tyS4 = .ok (epB, lrrUnit) ∧
      lrrUnit ≠ unitPrim := by
  constructor
  · rfl
  · decide

/-- Claim C6 (confirmed): the binary encoding of
`Parameters{entrypoint:"mint", value:Int 42}` begins with (and in fact equals)
`01 FF 04 6D 69 6E 74 00 00 00 02 00 2A`. -/
theorem c6_mint_encoding :
    Parameters.marshalBinary ⟨bs "mint", intPrim 42⟩ =
        [0x01, 0xFF, 0x04, 0x6D, 0x69, 0x6E, 0x74, 0x00, 0x00, 0x00, 0x02, 0x00, 0x2A] ∧
      List.IsPrefix [0x01, 0xFF, 0x04, 0x6D, 0x69, 0x6E, 0x74, 0x00, 0x00, 0x00, 0x02, 0x00, 0x2A]
        (Parameters.marshalBinary ⟨bs "mint", intPrim 42⟩) := by
  constructor
  · decide
  · decide

/-- Claim C4 counterexample: the claim says the `"default"` envelope with a
`D_UNIT` value binary-encodes to the single byte `0x00`; in fact
`MarshalBinary` only takes the short form for the *empty* entrypoint, and
encodes the `"default"` envelope in the long form. -/
theorem c4_encoding_counterexample :
    Parameters.marshalBinary pDefaultUnit ≠ [0] := by
  decide

/-- Claim C4 (amended): for an envelope with empty entrypoint, or entrypoint
`"default"` with a `D_UNIT` value, JSON encoding emits just the value tree;
binary encoding produces the single byte `0x00` exactly for the empty
entrypoint with a `D_UNIT` value, while the `"default"` envelope encodes in
the long form `01 00 <u32 size> <value>`; the two envelopes' JSON encodings
are identical, their binary encodings are not. -/
theorem c4_serialization_amended :
    (∀ p : Parameters,
        p.entrypoint = bs "" ∨ (p.entrypoint = bs "default" ∧ p.value.opCode = .D_UNIT) →
        p.marshalJSON = jsonOfPrim p.value) ∧
    (∀ v : Prim, v.opCode = .D_UNIT → Parameters.marshalBinary ⟨bs "", v⟩ = [0]) ∧
    Parameters.marshalBinary pDefaultUnit = 1 :: 0 :: u32 2 ++ encodePrim unitPrim ∧
    pEmptyUnit.marshalJSON = pDefaultUnit.marshalJSON := by
  refine ⟨?_, ?_, by decide, rfl⟩
  · intro p h
    unfold Parameters.marshalJSON
    rw [if_pos h]
  · intro v h
    unfold Parameters.marshalBinary
    rw [if_pos ⟨rfl, h⟩]

/-- Claim C4 witness: the empty-entrypoint `D_UNIT` envelope JSON-encodes to
just the value tree and binary-encodes to the single byte `0x00`. -/
theorem c4_serialization_witness :
    pEmptyUnit.marshalJSON = jsonOfPrim pEmptyUnit.value ∧
      Parameters.marshalBinary ⟨bs "", unitPrim⟩ = [0] :=
  ⟨c4_serialization_amended.1 pEmptyUnit (Or.inl rfl),
   c4_serialization_amended.2.1 unitPrim rfl⟩

end Micheline

namespace Micheline

theorem zarithDecTail_tail : ∀ f n rest, n < f →
    zarithDecTail (zarithTail f n ++ rest) = some (n, rest) := by
  intro f
  induction f with
  | zero => intro n rest h; omega
  | succ f ih =>
    intro n rest h
    by_cases h1 : n < 128
    · simp [zarithTail, h1, zarithDecTail]
    · have hrec := ih (n / 128) rest (by omega)
      simp only [zarithTail, if_neg h1, List.cons_append, zarithDecTail,
        if_neg (show ¬ (n % 128 + 128) < 128 by omega), hrec]
      refine congrArg (fun x => some (x, rest)) ?_
      omega

theorem zarithDecode_cons_high (b : Nat) (l : List Nat) (hb : ¬ b < 128) (v : Nat)
    (r : List Nat) (h : zarithDecTail l = some (v, r)) :
    zarithDecode (b :: l) =
      some (if b / 64 % 2 = 1 then -((b % 64 + 64 * v : Nat) : Int)
            else ((b % 64 + 64 * v : Nat) : Int), r) := by
  simp [zarithDecode, hb, h]

theorem zarith_roundtrip (i : Int) (rest : List Nat) :
    zarithDecode (zarithEncode i ++ rest) = some (i, rest) := by
  cases i with
  | ofNat m =>
    have hneg : ¬ ((Int.ofNat m) < 0) := Int.not_lt.mpr (Int.ofNat_nonneg m)
    have habs : (Int.ofNat m).natAbs = m := rfl
    unfold zarithEncode
    simp only [if_neg hneg, habs]
    by_cases hd : m / 64 = 0
    · rw [if_pos hd]
      simp only [List.singleton_append, zarithDecode]
      rw [if_pos (by omega), if_neg (by omega)]
      refine congrArg (fun x => some (x, rest)) ?_
      simp only [Int.ofNat_eq_natCast]
      omega
    · rw [if_neg hd]
      simp only [List.cons_append]
      rw [zarithDecode_cons_high _ _ (by omega) _ _ (zarithDecTail_tail _ _ _ (by omega))]
      rw [if_neg (by omega)]
      refine congrArg (fun x => some (x, rest)) ?_
      simp only [Int.ofNat_eq_natCast]
      omega
  | negSucc n =>
    have hneg : Int.negSucc n < 0 := Int.negSucc_lt_zero n
    have habs : (Int.negSucc n).natAbs = n + 1 := rfl
    unfold zarithEncode
    simp only [if_pos hneg, habs]
    by_cases hd : (n + 1) / 64 = 0
    · rw [if_pos hd]
      simp only [List.singleton_append, zarithDecode]
      rw [if_pos (by omega), if_pos (by omega)]
      refine congrArg (fun x => some (x, rest)) ?_
      simp only [Int.negSucc_eq]
      omega
    · rw [if_neg hd]
      simp only [List.cons_append]
      rw [zarithDecode_cons_high _ _ (by omega) _ _ (zarithDecTail_tail _ _ _ (by omega))]
      rw [if_pos (by omega)]
      refine congrArg (fun x => some (x, rest)) ?_
      simp only [Int.negSucc_eq]
      omega

theorem readU32_u32 (n : Nat) (rest : List Nat) :
    readU32 (u32 n ++ rest) = some (n % 4294967296, rest) := by
  simp only [u32, List.cons_append, List.nil_append, readU32]
  refine congrArg (fun x => some (x, rest)) ?_
  omega

theorem readU32_u32_of_lt (n : Nat) (rest : List Nat) (h : n < 4294967296) :
    readU32 (u32 n ++ rest) = some (n, rest) := by
  rw [readU32_u32, Nat.mod_eq_of_lt h]

theorem encodePrim_ne_nil : ∀ p, encodePrim p ≠ [] := by
  intro p
  cases p with
  | mk t op args anno i s b w => cases t <;> simp [encodePrim]


theorem splitByte_append (sep : Nat) (a l : List Nat) (ha : ∀ x ∈ a, x ≠ sep)
    (s : GoStr) (ss : List GoStr) (h : splitByte sep l = s :: ss) :
    splitByte sep (a ++ l) = (a ++ s) :: ss := by
  induction a with
  | nil => simpa using h
  | cons b a' ih =>
    have hb : b ≠ sep := ha b (by simp)
    have ih' := ih (fun x hx => ha x (by simp [hx]))
    simp only [List.cons_append, splitByte, List.append_eq, ih', if_neg hb]

theorem joinByte_ne_nil (annos : List GoStr) (hv : validAnnos annos = true)
    (hne : annos ≠ []) : joinByte 32 annos ≠ [] := by
  match annos with
  | [] => exact absurd rfl hne
  | [a] =>
    have ha : a.isEmpty = false := by
      simp only [validAnnos, List.all_cons, List.all_nil, Bool.and_true,
        Bool.and_eq_true, Bool.not_eq_true'] at hv
      exact hv.1
    cases a with
    | nil => simp at ha
    | cons x xs => simp [joinByte]
  | a :: b :: r => simp [joinByte]

theorem not_contains_imp (a : GoStr) (h : a.contains 32 = false) : ∀ x ∈ a, x ≠ 32 := by
  intro x hx hx2
  subst hx2
  simp only [List.contains_eq_any_beq, List.any_eq_false] at h
  simpa using h 32 hx

theorem splitByte_join (annos : List GoStr) (hv : validAnnos annos = true)
    (hne : annos ≠ []) : splitByte 32 (joinByte 32 annos) = annos := by
  induction annos with
  | nil => exact absurd rfl hne
  | cons a rest ih =>
    have hva : a.isEmpty = false ∧ a.contains 32 = false ∧ validAnnos rest = true := by
      simp only [validAnnos, List.all_cons, Bool.and_eq_true, Bool.not_eq_true'] at hv
      exact ⟨hv.1.1, hv.1.2, by simp only [validAnnos]; exact hv.2⟩
    cases rest with
    | nil =>
      have h0 : splitByte 32 ([] : List Nat) = [[]] := rfl
      have := splitByte_append 32 a [] (not_contains_imp a hva.2.1) [] [] h0
      simpa [joinByte] using this
    | cons b r' =>
      have hj : joinByte 32 (a :: b :: r') = a ++ 32 :: joinByte 32 (b :: r') := rfl
      have hrec := ih hva.2.2 (by simp)
      have hsplit : splitByte 32 (32 :: joinByte 32 (b :: r')) = [] :: (b :: r') := by
        simp [splitByte, hrec]
      have := splitByte_append 32 a (32 :: joinByte 32 (b :: r'))
        (not_contains_imp a hva.2.1) [] (b :: r') hsplit
      simpa [hj] using this

theorem readAnnoBlock_round (annos : List GoStr) (rest : List Nat)
    (hv : validAnnos annos = true) (hlen : (joinByte 32 annos).length < 4294967296) :
    readAnnoBlock (annoBlock annos ++ rest) = .ok (annos, rest) := by
  unfold annoBlock readAnnoBlock
  rw [List.append_assoc]
  have h1 := readU32_u32_of_lt (joinByte 32 annos).length (joinByte 32 annos ++ rest) hlen
  simp only [h1]
  rw [if_neg (by simp)]
  rw [List.take_left, List.drop_left]
  by_cases hne : annos = []
  · subst hne
    simp [joinByte]
  · rw [if_neg (joinByte_ne_nil _ hv hne), splitByte_join _ hv hne]

end Micheline

namespace Micheline

theorem psize_ge (p : Prim) : 2 ≤ psize p := by
  cases p with
  | mk t op args anno i s b w => simp [psize]

theorem plist_len1 : ∀ ps : PrimList, ps.length = 1 → ∃ a, ps = .cons a .nil := by
  intro ps h
  match ps with
  | .nil => simp [PrimList.length] at h
  | .cons a .nil => exact ⟨a, rfl⟩
  | .cons a (.cons b t) => simp [PrimList.length] at h

theorem plist_len2 : ∀ ps : PrimList, ps.length = 2 → ∃ a b, ps = .cons a (.cons b .nil) := by
  intro ps h
  match ps with
  | .nil => simp [PrimList.length] at h
  | .cons a .nil => simp [PrimList.length] at h
  | .cons a (.cons b .nil) => exact ⟨a, b, rfl⟩
  | .cons a (.cons b (.cons c t)) => simp [PrimList.length] at h; omega

theorem tagToOp_tag : ∀ op : OpCode, tagToOp op.tag = some op := by decide

theorem valid_int (op args anno i s b w)
    (h : validPrim (.mk .int op args anno i s b w) = true) :
    op = .K_PARAMETER ∧ args = .nil ∧ anno = [] ∧ s = [] ∧ b = [] ∧ w = false := by
  simp only [validPrim, Bool.and_eq_true, beq_iff_eq, Bool.not_eq_true'] at h
  tauto

theorem valid_string (op args anno i s b w)
    (h : validPrim (.mk .string op args anno i s b w) = true) :
    op = .K_PARAMETER ∧ args = .nil ∧ anno = [] ∧ i = 0 ∧ b = [] ∧
      s.length < 4294967296 ∧ w = false := by
  simp only [validPrim, Bool.and_eq_true, beq_iff_eq, Bool.not_eq_true',
    decide_eq_true_eq] at h
  tauto

theorem valid_bytes (op args anno i s b w)
    (h : validPrim (.mk .bytes op args anno i s b w) = true) :
    op = .K_PARAMETER ∧ args = .nil ∧ anno = [] ∧ i = 0 ∧ s = [] ∧
      b.length < 4294967296 ∧ w = false := by
  simp only [validPrim, Bool.and_eq_true, beq_iff_eq, Bool.not_eq_true',
    decide_eq_true_eq] at h
  tauto

theorem valid_sequence (op args anno i s b w)
    (h : validPrim (.mk .sequence op args anno i s b w) = true) :
    op = .K_PARAMETER ∧ anno = [] ∧ i = 0 ∧ s = [] ∧ b = [] ∧
      validPrimList args = true ∧ (encodeList args).length < 4294967296 ∧ w = false := by
  simp only [validPrim, Bool.and_eq_true, beq_iff_eq, Bool.not_eq_true',
    decide_eq_true_eq] at h
  tauto

theorem valid_nullary (op args anno i s b w)
    (h : validPrim (.mk .nullary op args anno i s b w) = true) :
    args = .nil ∧ anno = [] ∧ i = 0 ∧ s = [] ∧ b = [] ∧ w = false := by
  simp only [validPrim, Bool.and_eq_true, beq_iff_eq, Bool.not_eq_true'] at h
  tauto

theorem valid_nullaryAnno (op args anno i s b w)
    (h : validPrim (.mk .nullaryAnno op args anno i s b w) = true) :
    args = .nil ∧ validAnnos anno = true ∧ i = 0 ∧ s = [] ∧ b = [] ∧
      (joinByte 32 anno).length < 4294967296 ∧ w = false := by
  simp only [validPrim, Bool.and_eq_true, beq_iff_eq, Bool.not_eq_true',
    decide_eq_true_eq] at h
  tauto

theorem valid_unary (op args anno i s b w)
    (h : validPrim (.mk .unary op args anno i s b w) = true) :
    args.length = 1 ∧ validPrimList args = true ∧ anno = [] ∧ i = 0 ∧ s = [] ∧
      b = [] ∧ w = false := by
  simp only [validPrim, Bool.and_eq_true, beq_iff_eq, Bool.not_eq_true'] at h
  tauto

theorem valid_unaryAnno (op args anno i s b w)
    (h : validPrim (.mk .unaryAnno op args anno i s b w) = true) :
    args.length = 1 ∧ validPrimList args = true ∧ validAnnos anno = true ∧ i = 0 ∧
      s = [] ∧ b = [] ∧ (joinByte 32 anno).length < 4294967296 ∧ w = false := by
  simp only [validPrim, Bool.and_eq_true, beq_iff_eq, Bool.not_eq_true',
    decide_eq_true_eq] at h
  tauto

theorem valid_binary (op args anno i s b w)
    (h : validPrim (.mk .binary op args anno i s b w) = true) :
    args.length = 2 ∧ validPrimList args = true ∧ anno = [] ∧ i = 0 ∧ s = [] ∧
      b = [] ∧ w = false := by
  simp only [validPrim, Bool.and_eq_true, beq_iff_eq, Bool.not_eq_true'] at h
  tauto

theorem valid_binaryAnno (op args anno i s b w)
    (h : validPrim (.mk .binaryAnno op args anno i s b w) = true) :
    args.length = 2 ∧ validPrimList args = true ∧ validAnnos anno = true ∧ i = 0 ∧
      s = [] ∧ b = [] ∧ (joinByte 32 anno).length < 4294967296 ∧ w = false := by
  simp only [validPrim, Bool.and_eq_true, beq_iff_eq, Bool.not_eq_true',
    decide_eq_true_eq] at h
  tauto

theorem valid_variadicAnno (op args anno i s b w)
    (h : validPrim (.mk .variadicAnno op args anno i s b w) = true) :
    validPrimList args = true ∧ validAnnos anno = true ∧ i = 0 ∧ s = [] ∧ b = [] ∧
      (encodeList args).length < 4294967296 ∧
      (joinByte 32 anno).length < 4294967296 ∧ w = false := by
  simp only [validPrim, Bool.and_eq_true, beq_iff_eq, Bool.not_eq_true',
    decide_eq_true_eq] at h
  tauto

theorem decF_tag0 (f : Nat) (l : List Nat) :
    decodePrimF (f + 1) (0 :: l) =
      (match zarithDecode l with
       | some (i, r) => .ok (intPrim i, r)
       | none => .error .malformedInt) := rfl

theorem decF_tag1 (f : Nat) (l : List Nat) :
    decodePrimF (f + 1) (1 :: l) =
      (match readU32 l with
       | none => .error .shortBuffer
       | some (n, r) =>
         if r.length < n then .error .shortBuffer
         else .ok (strPrim (r.take n), r.drop n)) := rfl

theorem decF_tag2 (f : Nat) (l : List Nat) :
    decodePrimF (f + 1) (2 :: l) =
      (match readU32 l with
       | none => .error .shortBuffer
       | some (n, r) =>
         if r.length < n then .error .shortBuffer
         else
           match decodeSeqF f (r.take n) with
           | .ok ps => .ok (seqPrim ps, r.drop n)
           | .error e => .error e) := rfl

theorem decF_tag3 (f : Nat) (ob : Nat) (l : List Nat) :
    decodePrimF (f + 1) (3 :: ob :: l) =
      (match tagToOp ob with
       | some op => .ok (.mk .nullary op .nil [] 0 [] [] false, l)
       | none => .error (.invalidTag ob)) := rfl

theorem decF_tag4 (f : Nat) (ob : Nat) (l : List Nat) :
    decodePrimF (f + 1) (4 :: ob :: l) =
      (match tagToOp ob with
       | some op =>
         match readAnnoBlock l with
         | .ok (annos, r2) => .ok (.mk .nullaryAnno op .nil annos 0 [] [] false, r2)
         | .error e => .error e
       | none => .error (.invalidTag ob)) := rfl

theorem decF_tag5 (f : Nat) (ob : Nat) (l : List Nat) :
    decodePrimF (f + 1) (5 :: ob :: l) =
      (match tagToOp ob with
       | some op =>
         match decodePrimF f l with
         | .ok (a, r2) => .ok (.mk .unary op (.cons a .nil) [] 0 [] [] false, r2)
         | .error e => .error e
       | none => .error (.invalidTag ob)) := rfl

theorem decF_tag6 (f : Nat) (ob : Nat) (l : List Nat) :
    decodePrimF (f + 1) (6 :: ob :: l) =
      (match tagToOp ob with
       | some op =>
         match decodePrimF f l with
         | .ok (a, r2) =>
           match readAnnoBlock r2 with
           | .ok (annos, r3) => .ok (.mk .unaryAnno op (.cons a .nil) annos 0 [] [] false, r3)
           | .error e => .error e
         | .error e => .error e
       | none => .error (.invalidTag ob)) := rfl

theorem decF_tag7 (f : Nat) (ob : Nat) (l : List Nat) :
    decodePrimF (f + 1) (7 :: ob :: l) =
      (match tagToOp ob with
       | some op =>
         match decodePrimF f l with
         | .ok (a, r2) =>
           match decodePrimF f r2 with
           | .ok (b, r3) => .ok (.mk .binary op (.cons a (.cons b .nil)) [] 0 [] [] false, r3)
           | .error e => .error e
         | .error e => .error e
       | none => .error (.invalidTag ob)) := rfl

theorem decF_tag8 (f : Nat) (ob : Nat) (l : List Nat) :
    decodePrimF (f + 1) (8 :: ob :: l) =
      (match tagToOp ob with
       | some op =>
         match decodePrimF f l with
         | .ok (a, r2) =>
           match decodePrimF f r2 with
           | .ok (b, r3) =>
             match readAnnoBlock r3 with
             | .ok (annos, r4) =>
               .ok (.mk .binaryAnno op (.cons a (.cons b .nil)) annos 0 [] [] false, r4)
             | .error e => .error e
           | .error e => .error e
         | .error e => .error e
       | none => .error (.invalidTag ob)) := rfl

theorem decF_tag9 (f : Nat) (ob : Nat) (l : List Nat) :
    decodePrimF (f + 1) (9 :: ob :: l) =
      (match tagToOp ob with
       | some op =>
         match readU32 l with
         | none => .error .shortBuffer
         | some (n, r2) =>
           if r2.length < n then .error .shortBuffer
           else
             match decodeSeqF f (r2.take n) with
             | .ok ps =>
               match readAnnoBlock (r2.drop n) with
               | .ok (annos, r3) => .ok (.mk .variadicAnno op ps annos 0 [] [] false, r3)
               | .error e => .error e
             | .error e => .error e
       | none => .error (.invalidTag ob)) := rfl

theorem decF_tag10 (f : Nat) (l : List Nat) :
    decodePrimF (f + 1) (10 :: l) =
      (match readU32 l with
       | none => .error .shortBuffer
       | some (n, r) =>
         if r.length < n then .error .shortBuffer
         else .ok (bytesPrim (r.take n), r.drop n)) := rfl

theorem decodeSeqF_cons (f : Nat) (x : Nat) (l : List Nat) :
    decodeSeqF (f + 1) (x :: l) =
      (match decodePrimF f (x :: l) with
       | .ok (p, r) =>
         match decodeSeqF f r with
         | .ok ps => .ok (.cons p ps)
         | .error e => .error e
       | .error e => .error e) := rfl

end Micheline

namespace Micheline

theorem codec_round : ∀ f : Nat,
    (∀ p rest, validPrim p = true → psize p ≤ f →
        decodePrimF f (encodePrim p ++ rest) = .ok (p, rest)) ∧
    (∀ ps, validPrimList ps = true → plsize ps < f →
        decodeSeqF f (encodeList ps) = .ok ps) := by
  intro f
  induction f using Nat.strong_induction_on with
  | _ f ih =>
    constructor
    · intro p rest hv hsz
      cases p with
      | mk t op args anno i s b w =>
        have hf2 : 2 ≤ f := le_trans (psize_ge _) hsz
        obtain ⟨f', rfl⟩ : ∃ f', f = f' + 1 := ⟨f - 1, by omega⟩
        have hplsize : plsize args + 2 ≤ f' + 1 := by
          have := hsz; simp only [psize] at this; omega
        cases t with
        | int =>
          obtain ⟨hop, hargs, hanno, hs, hb, hw⟩ := valid_int _ _ _ _ _ _ _ hv
          subst hop; subst hargs; subst hanno; subst hs; subst hb; subst hw
          simp only [encodePrim, List.cons_append, decF_tag0, zarith_roundtrip]
          rfl
        | string =>
          obtain ⟨hop, hargs, hanno, hi, hb, hlen, hw⟩ := valid_string _ _ _ _ _ _ _ hv
          subst hop; subst hargs; subst hanno; subst hi; subst hb; subst hw
          have h1 := readU32_u32_of_lt s.length (s ++ rest) hlen
          simp only [encodePrim, List.cons_append, List.append_assoc, decF_tag1, h1]
          rw [if_neg (by simp only [List.length_append]; omega)]
          rw [List.take_left, List.drop_left]
          rfl
        | bytes =>
          obtain ⟨hop, hargs, hanno, hi, hs, hlen, hw⟩ := valid_bytes _ _ _ _ _ _ _ hv
          subst hop; subst hargs; subst hanno; subst hi; subst hs; subst hw
          have h1 := readU32_u32_of_lt b.length (b ++ rest) hlen
          simp only [encodePrim, List.cons_append, List.append_assoc, decF_tag10, h1]
          rw [if_neg (by simp only [List.length_append]; omega)]
          rw [List.take_left, List.drop_left]
          rfl
        | sequence =>
          obtain ⟨hop, hanno, hi, hs, hb, hvl, hlen, hw⟩ := valid_sequence _ _ _ _ _ _ _ hv
          subst hop; subst hanno; subst hi; subst hs; subst hb; subst hw
          have h1 := readU32_u32_of_lt (encodeList args).length (encodeList args ++ rest) hlen
          have hseq := (ih f' (by omega)).2 args hvl (by omega)
          simp only [encodePrim, List.cons_append, List.append_assoc, decF_tag2, h1]
          rw [if_neg (by simp only [List.length_append]; omega)]
          rw [List.take_left, List.drop_left, hseq]
          rfl
        | nullary =>
          obtain ⟨hargs, hanno, hi, hs, hb, hw⟩ := valid_nullary _ _ _ _ _ _ _ hv
          subst hargs; subst hanno; subst hi; subst hs; subst hb; subst hw
          simp only [encodePrim, List.cons_append, List.nil_append, decF_tag3, tagToOp_tag]
        | nullaryAnno =>
          obtain ⟨hargs, hvann, hi, hs, hb, hlen, hw⟩ := valid_nullaryAnno _ _ _ _ _ _ _ hv
          subst hargs; subst hi; subst hs; subst hb; subst hw
          have hann := readAnnoBlock_round anno rest hvann hlen
          simp only [encodePrim, List.cons_append, List.append_assoc, decF_tag4,
            tagToOp_tag, hann]
        | unary =>
          obtain ⟨hlen1, hvl, hanno, hi, hs, hb, hw⟩ := valid_unary _ _ _ _ _ _ _ hv
          subst hanno; subst hi; subst hs; subst hb; subst hw
          obtain ⟨a, rfl⟩ := plist_len1 args hlen1
          have hva : validPrim a = true := by
            simpa [validPrimList, Bool.and_eq_true] using hvl
          have hsa : psize a ≤ f' := by
            have := hplsize; simp only [plsize] at this; omega
          have hrec := (ih f' (by omega)).1 a rest hva hsa
          simp only [encodePrim, encodeList, List.append_nil, List.cons_append,
            decF_tag5, tagToOp_tag, hrec]
        | unaryAnno =>
          obtain ⟨hlen1, hvl, hvann, hi, hs, hb, halen, hw⟩ :=
            valid_unaryAnno _ _ _ _ _ _ _ hv
          subst hi; subst hs; subst hb; subst hw
          obtain ⟨a, rfl⟩ := plist_len1 args hlen1
          have hva : validPrim a = true := by
            simpa [validPrimList, Bool.and_eq_true] using hvl
          have hsa : psize a ≤ f' := by
            have := hplsize; simp only [plsize] at this; omega
          have hrec := (ih f' (by omega)).1 a (annoBlock anno ++ rest) hva hsa
          have hann := readAnnoBlock_round anno rest hvann halen
          simp only [encodePrim, encodeList, List.append_nil, List.cons_append,
            List.append_assoc, decF_tag6, tagToOp_tag, hrec, hann]
        | binary =>
          obtain ⟨hlen2, hvl, hanno, hi, hs, hb, hw⟩ := valid_binary _ _ _ _ _ _ _ hv
          subst hanno; subst hi; subst hs; subst hb; subst hw
          obtain ⟨a, a2, rfl⟩ := plist_len2 args hlen2
          have hva : validPrim a = true ∧ validPrim a2 = true := by
            have := hvl
            simp only [validPrimList, Bool.and_eq_true] at this
            exact ⟨this.1, this.2.1⟩
          have hsa : psize a ≤ f' ∧ psize a2 ≤ f' := by
            have := hplsize; simp only [plsize] at this
            have h2 := psize_ge a
            have h3 := psize_ge a2
            exact ⟨by omega, by omega⟩
          have hrec1 := (ih f' (by omega)).1 a (encodePrim a2 ++ rest) hva.1 hsa.1
          have hrec2 := (ih f' (by omega)).1 a2 rest hva.2 hsa.2
          simp only [encodePrim, encodeList, List.append_nil, List.cons_append,
            List.append_assoc, decF_tag7, tagToOp_tag, hrec1, hrec2]
        | binaryAnno =>
          obtain ⟨hlen2, hvl, hvann, hi, hs, hb, halen, hw⟩ :=
            valid_binaryAnno _ _ _ _ _ _ _ hv
          subst hi; subst hs; subst hb; subst hw
          obtain ⟨a, a2, rfl⟩ := plist_len2 args hlen2
          have hva : validPrim a = true ∧ validPrim a2 = true := by
            have := hvl
            simp only [validPrimList, Bool.and_eq_true] at this
            exact ⟨this.1, this.2.1⟩
          have hsa : psize a ≤ f' ∧ psize a2 ≤ f' := by
            have := hplsize; simp only [plsize] at this
            have h2 := psize_ge a
            have h3 := psize_ge a2
            exact ⟨by omega, by omega⟩
          have hrec1 := (ih f' (by omega)).1 a (encodePrim a2 ++ (annoBlock anno ++ rest))
            hva.1 hsa.1
          have hrec2 := (ih f' (by omega)).1 a2 (annoBlock anno ++ rest) hva.2 hsa.2
          have hann := readAnnoBlock_round anno rest hvann halen
          simp only [encodePrim, encodeList, List.append_nil, List.cons_append,
            List.append_assoc, decF_tag8, tagToOp_tag, hrec1, hrec2, hann]
        | variadicAnno =>
          obtain ⟨hvl, hvann, hi, hs, hb, hblen, halen, hw⟩ :=
            valid_variadicAnno _ _ _ _ _ _ _ hv
          subst hi; subst hs; subst hb; subst hw
          have h1 := readU32_u32_of_lt (encodeList args).length
            (encodeList args ++ (annoBlock anno ++ rest)) hblen
          have hseq := (ih f' (by omega)).2 args hvl (by omega)
          have hann := readAnnoBlock_round anno rest hvann halen
          simp only [encodePrim, List.cons_append, List.append_assoc, decF_tag9,
            tagToOp_tag, h1]
          rw [if_neg (by simp only [List.length_append]; omega)]
          rw [List.take_left, List.drop_left, hseq, hann]
    · intro ps hv hsz
      cases ps with
      | nil =>
        obtain ⟨f', rfl⟩ : ∃ f', f = f' + 1 := ⟨f - 1, by omega⟩
        simp [encodeList, decodeSeqF]
      | cons p ps' =>
        obtain ⟨f', rfl⟩ : ∃ f', f = f' + 1 := ⟨f - 1, by omega⟩
        have hvp : validPrim p = true ∧ validPrimList ps' = true := by
          simpa [validPrimList, Bool.and_eq_true] using hv
        have hsz' : psize p + plsize ps' < f' + 1 := by
          have := hsz; simp only [plsize] at this; omega
        have hp2 := psize_ge p
        have hIH1 : decodePrimF f' (encodePrim p ++ encodeList ps') = .ok (p, encodeList ps') :=
          (ih f' (by omega)).1 p (encodeList ps') hvp.1 (by omega)
        have hIH2 : decodeSeqF f' (encodeList ps') = .ok ps' :=
          (ih f' (by omega)).2 ps' hvp.2 (by omega)
        obtain ⟨x, xs, hcons⟩ : ∃ x xs, encodePrim p = x :: xs := by
          cases hh : encodePrim p with
          | nil => exact absurd hh (encodePrim_ne_nil p)
          | cons x xs => exact ⟨x, xs, rfl⟩
        rw [show encodeList (PrimList.cons p ps') = encodePrim p ++ encodeList ps' from rfl]
        rw [hcons, List.cons_append] at hIH1 ⊢
        simp only [decodeSeqF_cons, hIH1, hIH2]

end Micheline

namespace Micheline

theorem u32_len (n : Nat) : (u32 n).length = 4 := rfl

theorem psize_le_encLen : ∀ n,
    (∀ p, validPrim p = true → psize p ≤ n → psize p ≤ (encodePrim p).length) ∧
    (∀ ps, validPrimList ps = true → plsize ps ≤ n → plsize ps ≤ (encodeList ps).length) := by
  intro n
  induction n using Nat.strong_induction_on with
  | _ n ih =>
    have partA : ∀ p, validPrim p = true → psize p ≤ n → psize p ≤ (encodePrim p).length := by
      intro p hv h
      cases p with
      | mk t op args anno i s b w =>
        have hn2 : 2 ≤ n := le_trans (psize_ge _) h
        have hps : psize (Prim.mk t op args anno i s b w) = 2 + plsize args := rfl
        have hih : validPrimList args = true → plsize args ≤ n - 2 →
            plsize args ≤ (encodeList args).length :=
          fun hvl hle => (ih (n - 2) (by omega)).2 args hvl hle
        cases t with
        | int =>
          obtain ⟨_, hargs, _, _, _, _⟩ := valid_int _ _ _ _ _ _ _ hv
          subst hargs
          have hz : 1 ≤ (zarithEncode i).length := by
            unfold zarithEncode
            by_cases hi : i < 0 <;> by_cases hd : i.natAbs / 64 = 0 <;> simp [hi, hd]
          simp only [psize, plsize, encodePrim, List.length_cons]
          omega
        | string =>
          obtain ⟨_, hargs, _, _, _, _, _⟩ := valid_string _ _ _ _ _ _ _ hv
          subst hargs
          simp only [psize, plsize, encodePrim, List.length_cons, List.length_append, u32_len]
          omega
        | bytes =>
          obtain ⟨_, hargs, _, _, _, _, _⟩ := valid_bytes _ _ _ _ _ _ _ hv
          subst hargs
          simp only [psize, plsize, encodePrim, List.length_cons, List.length_append, u32_len]
          omega
        | sequence =>
          obtain ⟨_, _, _, _, _, hvl, _, _⟩ := valid_sequence _ _ _ _ _ _ _ hv
          have hb := hih hvl (by simp only [psize] at h; omega)
          simp only [psize, encodePrim, List.length_cons, List.length_append, u32_len]
          omega
        | nullary =>
          obtain ⟨hargs, _, _, _, _, _⟩ := valid_nullary _ _ _ _ _ _ _ hv
          subst hargs
          simp only [psize, plsize, encodePrim, List.length_cons, List.length_nil]
          omega
        | nullaryAnno =>
          obtain ⟨hargs, _, _, _, _, _, _⟩ := valid_nullaryAnno _ _ _ _ _ _ _ hv
          subst hargs
          simp only [psize, plsize, encodePrim, List.length_cons, List.length_append]
          omega
        | unary =>
          obtain ⟨_, hvl, _, _, _, _, _⟩ := valid_unary _ _ _ _ _ _ _ hv
          have hb := hih hvl (by simp only [psize] at h; omega)
          simp only [psize, encodePrim, List.length_cons]
          omega
        | unaryAnno =>
          obtain ⟨_, hvl, _, _, _, _, _, _⟩ := valid_unaryAnno _ _ _ _ _ _ _ hv
          have hb := hih hvl (by simp only [psize] at h; omega)
          simp only [psize, encodePrim, List.length_cons, List.length_append]
          omega
        | binary =>
          obtain ⟨_, hvl, _, _, _, _, _⟩ := valid_binary _ _ _ _ _ _ _ hv
          have hb := hih hvl (by simp only [psize] at h; omega)
          simp only [psize, encodePrim, List.length_cons]
          omega
        | binaryAnno =>
          obtain ⟨_, hvl, _, _, _, _, _, _⟩ := valid_binaryAnno _ _ _ _ _ _ _ hv
          have hb := hih hvl (by simp only [psize] at h; omega)
          simp only [psize, encodePrim, List.length_cons, List.length_append]
          omega
        | variadicAnno =>
          obtain ⟨hvl, _, _, _, _, _, _, _⟩ := valid_variadicAnno _ _ _ _ _ _ _ hv
          have hb := hih hvl (by simp only [psize] at h; omega)
          simp only [psize, encodePrim, List.length_cons, List.length_append, u32_len]
          omega
    refine ⟨partA, ?_⟩
    intro ps hv h
    cases ps with
    | nil => simp [plsize, encodeList]
    | cons p ps' =>
      have hvp : validPrim p = true ∧ validPrimList ps' = true := by
        simpa [validPrimList, Bool.and_eq_true] using hv
      have hp2 := psize_ge p
      have hsz : psize p + plsize ps' ≤ n := by simpa [plsize] using h
      have hA := partA p hvp.1 (by omega)
      have hB := (ih (n - 2) (by omega)).2 ps' hvp.2 (by omega)
      simp only [plsize, encodeList, List.length_append]
      omega

theorem decodePrim_enc (v : Prim) (hv : validPrim v = true) :
    decodePrim (encodePrim v) = .ok (v, []) := by
  unfold decodePrim
  have h1 := (psize_le_encLen (psize v)).1 v hv le_rfl
  have h2 := (codec_round ((encodePrim v).length + 1)).1 v [] hv (by omega)
  simpa using h2

theorem patchU32_exact (pre suf : List Nat) (v : Nat) :
    patchU32 (pre ++ u32 0 ++ suf) pre.length v = pre ++ u32 v ++ suf := by
  unfold patchU32
  have h1 : (pre ++ u32 0 ++ suf).take pre.length = pre := by
    rw [List.append_assoc, List.take_left]
  have h2 : (pre ++ u32 0 ++ suf).drop (pre.length + 4) = suf := by
    rw [List.append_assoc]
    rw [← List.drop_drop, List.drop_left]
    norm_num [u32]
  rw [h1, h2]

theorem marshalBinary_named (ep : GoStr) (v : Prim)
    (h1 : ep ≠ bs "") (h2 : ep ≠ bs "default") (h3 : ep ≠ bs "root") (h4 : ep ≠ bs "do")
    (h5 : ep ≠ bs "set_delegate") (h6 : ep ≠ bs "remove_delegate")
    (hlen : ep.length ≤ 255) :
    Parameters.marshalBinary ⟨ep, v⟩ =
      (1 :: 255 :: ep.length :: ep) ++ u32 (encodePrim v).length ++ encodePrim v := by
  have hep0 : ep.length ≠ 0 := by
    intro h0
    exact h1 (by simpa [bs] using List.eq_nil_of_length_eq_zero h0)
  have hmod : ep.length % 256 = ep.length := Nat.mod_eq_of_lt (by omega)
  unfold Parameters.marshalBinary
  rw [if_neg (fun hc => hep0 hc.1)]
  simp only [if_neg (show ¬(ep = bs "" ∨ ep = bs "default") from by
      rintro (h | h)
      · exact h1 h
      · exact h2 h),
    if_neg h3, if_neg h4, if_neg h5, if_neg h6, hmod]
  have hn : 2 + 1 + ep.length = (1 :: 255 :: ep.length :: ep : List Nat).length := by
    simp only [List.length_cons]
    omega
  have hval : ((1 :: 255 :: ep.length :: ep) ++ u32 0 ++ encodePrim v : List Nat).length -
      (2 + 1 + ep.length) - 4 = (encodePrim v).length := by
    simp only [List.length_append, List.length_cons, u32_len]
    omega
  rw [hval, hn, patchU32_exact]

theorem unmarshal_named_eq (sz : Nat) (r3 : List Nat) :
    Parameters.unmarshalBinary (1 :: 255 :: sz :: r3) =
      (match (if r3.length < sz then Except.error Err.shortBuffer
              else Except.ok (r3.take sz, r3.drop sz) : Except Err (GoStr × List Nat)) with
       | .error e => .error e
       | .ok (ep, r4) =>
         match readU32 r4 with
         | none => .error .shortBuffer
         | some (size, r5) =>
           if r5.length < size then .error .shortBuffer
           else
             match decodePrim r5 with
             | .ok (prim, _) => .ok ⟨ep, prim⟩
             | .error e => .error e) := rfl

theorem unmarshalBinary_named (ep : GoStr) (v : Prim) (hv : validPrim v = true) :
    Parameters.unmarshalBinary
        ((1 :: 255 :: ep.length :: ep) ++ u32 (encodePrim v).length ++ encodePrim v) =
      .ok ⟨ep, v⟩ := by
  have hcons : ((1 :: 255 :: ep.length :: ep) ++ u32 (encodePrim v).length ++ encodePrim v
      : List Nat) =
      1 :: 255 :: ep.length :: (ep ++ (u32 (encodePrim v).length ++ encodePrim v)) := by
    simp
  rw [hcons, unmarshal_named_eq]
  rw [if_neg (show ¬((ep ++ (u32 (encodePrim v).length ++ encodePrim v)).length < ep.length)
    from by simp only [List.length_append]; omega)]
  rw [List.take_left, List.drop_left]
  have hr := readU32_u32 (encodePrim v).length (encodePrim v)
  simp only [hr]
  rw [if_neg (Nat.not_lt.mpr (Nat.mod_le _ _))]
  simp only [decodePrim_enc v hv]

end Micheline

namespace Micheline

/-- Claim C5 (confirmed): for every envelope whose entrypoint name is not one
of the six reserved names and has byte length at most 255, and whose value is
a well-formed `Prim` tree, the binary encoder emits the tag `0xFF`, a one-byte
length equal to the name's byte length, the name bytes, a `u32` payload size,
and the encoded value; and `UnmarshalBinary` after `MarshalBinary` recovers
the same entrypoint name and a structurally equal value prim. -/
theorem c5_named_entrypoint_roundtrip :
    ∀ p : Parameters,
      p.entrypoint ∉ [bs "", bs "default", bs "root", bs "do", bs "set_delegate",
        bs "remove_delegate"] →
      p.entrypoint.length ≤ 255 →
      validPrim p.value = true →
      p.marshalBinary =
        (1 :: 255 :: p.entrypoint.length :: p.entrypoint) ++
          u32 (encodePrim p.value).length ++ encodePrim p.value ∧
      Parameters.unmarshalBinary p.marshalBinary = .ok p := by
  intro p hni hlen hv
  obtain ⟨ep, v⟩ := p
  simp only [List.mem_cons, List.not_mem_nil, or_false, not_or] at hni
  obtain ⟨h1, h2, h3, h4, h5, h6⟩ := hni
  have hm := marshalBinary_named ep v h1 h2 h3 h4 h5 h6 hlen
  refine ⟨hm, ?_⟩
  rw [hm]
  exact unmarshalBinary_named ep v hv

/-- Claim C5 witness: the `mint` envelope with value `Int 42` takes the
`0xFF`-tagged named form and round-trips through the binary codec. -/
theorem c5_named_entrypoint_witness :
    Parameters.marshalBinary ⟨bs "mint", intPrim 42⟩ =
        (1 :: 255 :: (bs "mint").length :: bs "mint") ++
          u32 (encodePrim (intPrim 42)).length ++ encodePrim (intPrim 42) ∧
      Parameters.unmarshalBinary (Parameters.marshalBinary ⟨bs "mint", intPrim 42⟩) =
        .ok ⟨bs "mint", intPrim 42⟩ :=
  c5_named_entrypoint_roundtrip ⟨bs "mint", intPrim 42⟩ (by decide) (by decide) (by decide)

/-- Helper: `walkTree` called at a nesting level above 99 fails immediately
with the max-depth error, for every map, label, type, and stack. -/
theorem walkTree_depth (m : MMap) (label : GoStr) (typ : Ty) (stack : List Prim)
    (lvl : Nat) (h : 99 < lvl) :
    walkTree m label typ stack lvl = Except.error Err.maxDepth := by
  unfold walkTree
  cases hf : 101 - lvl with
  | zero => rfl
  | succ f =>
    simp only [walkTreeF]
    rw [if_pos h]

set_option maxRecDepth 4000 in
/-- Claim C3 (confirmed): for every type, value stack, and label, `walkTree`
invoked at a nesting level greater than 99 returns the max-depth error
immediately without recursing; consequently `Value.Map` on a (type, value)
pair whose walk nests deeper than 99 — here a 110-deep `option`/`Some`
tower — fails with the max-depth error and the walk terminates. -/
theorem c3_walkTree_depth_guard :
    (∀ (m : MMap) (label : GoStr) (typ : Ty) (stack : List Prim) (lvl : Nat),
        99 < lvl → walkTree m label typ stack lvl = Except.error Err.maxDepth) ∧
      (Value.mapFn (newValue ⟨optTower 110⟩ (someTower 110))).1 =
        Except.error Err.maxDepth := by
  constructor
  · intro m label typ stack lvl h
    exact walkTree_depth m label typ stack lvl h
  · rfl

/-- Claim C3 witness: at level 100 with a concrete map, label, type, and
stack, `walkTree` returns the max-depth error. -/
theorem c3_walkTree_depth_guard_witness :
    walkTree MMap.nil emptyLabel ⟨natTyPrim⟩ [] 100 = Except.error Err.maxDepth :=
  c3_walkTree_depth_guard.1 MMap.nil emptyLabel ⟨natTyPrim⟩ [] 100 (by decide)

/-- Claim C7 (confirmed): when the walk of a `Value` fails, `Value.MarshalJSON`
follows the render policy — with `RENDER_TYPE_FAIL` it returns the error (and
the error envelope), with `RENDER_TYPE_PANIC` it panics, and with every other
render value (the default case, including `RENDER_TYPE_PRIM`) it logs and
returns the JSON of the raw prim value tree with no error. -/
theorem c7_marshal_render_policy :
    ∀ (v : Value) (err : Err),
      (Value.mapFn v).1 = Except.error err →
      Value.marshalJSON v =
        (if v.render = RENDER_TYPE_FAIL then MarshalOut.failed (errEnvelope v err) err
         else if v.render = RENDER_TYPE_PANIC then MarshalOut.panicked err
         else MarshalOut.ok (jsonOfPrim v.val)) := by
  intro v err h
  simp only [Value.marshalJSON, h]
  obtain ⟨t, val, r, mp⟩ := v
  rcases r with _ | _ | _ | n <;>
    simp [RENDER_TYPE_FAIL, RENDER_TYPE_PANIC]

/-- Claim C7 witness: the unit-type/int-value mismatch under render policy
`RENDER_TYPE_PANIC` makes `MarshalJSON` panic with the walk error. -/
theorem c7_marshal_render_policy_witness :
    Value.marshalJSON (vMismatch 2) =
      MarshalOut.panicked (Err.typeMismatch OpCode.T_UNIT PrimShape.int OpCode.K_PARAMETER) := by
  have h := c7_marshal_render_policy (vMismatch 2)
    (Err.typeMismatch OpCode.T_UNIT PrimShape.int OpCode.K_PARAMETER) rfl
  simpa [vMismatch, RENDER_TYPE_FAIL, RENDER_TYPE_PANIC] using h

/-- Claim C8 counterexample: on the unannotated `option nat` value holding
`None`, `Map()` succeeds with the nil mapping, yet the memo guard
`e.mapped != nil` remains false — the `Value` comes back exactly as it went
in, with nothing memoized, so every subsequent `Map()` re-runs the walk,
refuting the claim's universal no-re-walk memoization. -/
theorem c8_map_memoized_counterexample :
    (Value.mapFn vNonePlain).1 = Except.ok MValue.null ∧
      (Value.mapFn vNonePlain).2.mapped = none ∧
      (Value.mapFn vNonePlain).2 = vNonePlain := by
  refine ⟨rfl, rfl, rfl⟩

/-- Claim C8 (corrected): when `Map()` succeeds on a `Value`, a subsequent
`Map()` on the returned value gives the same mapping and the underlying type
and value prims are unchanged; the mapping is actually memoized — so the
second call skips the walk — exactly when it is not the nil interface.  A
nil lifted mapping (walk output binding only `"0"` to nil) is assigned to
`e.mapped` but leaves the `e.mapped != nil` guard false, so later calls
re-run the walk and merely recompute the same nil result. -/
theorem c8_map_memoized_amended :
    ∀ (v v2 : Value) (m : MValue),
      Value.mapFn v = (Except.ok m, v2) →
      Value.mapFn v2 = (Except.ok m, v2) ∧ v2.typ = v.typ ∧ v2.val = v.val ∧
        (m ≠ MValue.null → v2.mapped = some m) := by
  intro v v2 m h
  obtain ⟨t, val, r, mp⟩ := v
  cases mp with
  | some m0 =>
    simp only [Value.mapFn, Prod.mk.injEq, Except.ok.injEq] at h
    obtain ⟨h1, h2⟩ := h
    subst h1
    subst h2
    exact ⟨by simp [Value.mapFn], rfl, rfl, fun _ => rfl⟩
  | none =>
    simp only [Value.mapFn] at h
    cases hw : walkTree MMap.nil emptyLabel t [val] 0 with
    | error e =>
      rw [hw] at h
      simp at h
    | ok res =>
      obtain ⟨mm, st⟩ := res
      simp only [hw, Prod.mk.injEq, Except.ok.injEq] at h
      obtain ⟨h1, h2⟩ := h
      subst h2
      by_cases hn : liftMap mm = MValue.null
      · have hm0 : m = MValue.null := h1 ▸ hn
        subst hm0
        refine ⟨?_, rfl, rfl, fun hm => absurd rfl hm⟩
        simp only [Value.mapFn, hn, if_pos, hw, h1]
      · have hn' : ¬ m = MValue.null := h1 ▸ hn
        refine ⟨?_, rfl, rfl, fun _ => by rw [if_neg hn, h1]⟩
        simp only [Value.mapFn, h1, if_neg hn']

/-- Claim C8 witness: mapping the `string %t` value succeeds with a non-nil
mapping, memoizes it, and a second `Map()` returns the identical mapping with
type and value unchanged. -/
theorem c8_map_memoized_witness :
    Value.mapFn vStrT' = (Except.ok mStrT, vStrT') ∧ vStrT'.typ = vStrT.typ ∧
      vStrT'.val = vStrT.val ∧ vStrT'.mapped = some mStrT :=
  have h := c8_map_memoized_amended vStrT vStrT' mStrT (by rfl)
  ⟨h.1, h.2.1, h.2.2.1, h.2.2.2 (by decide)⟩

/-- Claim C9 (code bug): the labeled map of the `string %t` value binds path
`t` to the RFC-3339 string `2020-01-01T00:00:00Z`, and a correct RFC-3339
parse of that string succeeds (Unix time 1577836800); yet `GetTime("t")`
returns the zero time with `false`, because the code passes the found string
as the layout and the layout constant as the value (`time.Parse(t,
time.RFC3339)` with swapped arguments), so the parse fails. -/
theorem c9_gettime_swapped_args :
    (Value.mapFn vStrT).1 = Except.ok mStrT ∧
      getPath mStrT (bs "t") = some (MValue.str tsBytes) ∧
      parseRFC3339 tsBytes = some 1577836800 ∧
      goTimeParse tsBytes rfc3339Layout = none ∧
      Value.getTime vStrT (bs "t") = (timeZero, false) := by
  refine ⟨rfl, by decide, by decide, by decide, rfl⟩

/-- Claim C10 (confirmed): when the labeled map binds a path label to null
(as a `D_NONE` option produces), the typed getters report found with a zero
result — `GetInt64` gives `(0, true)`, `GetBig` gives `(0, true)`, and
`GetBool` gives `(false, true)`. -/
theorem c10_null_getters :
    ∀ (v : Value) (label : GoStr) (m : MValue),
      (Value.mapFn v).1 = Except.ok m →
      getPath m label = some MValue.null →
      Value.getInt64 v label = (0, true) ∧
        Value.getBig v label = (some 0, true) ∧
        Value.getBool v label = (false, true) := by
  intro v label m h1 h2
  refine ⟨?_, ?_, ?_⟩
  · simp only [Value.getInt64, h1, h2]
  · simp only [Value.getBig, h1, h2]
  · simp only [Value.getBool, h1, h2]

/-- Claim C10 witness: on the `option nat %x` value holding `None`, whose map
binds `x` to null, the three getters return `(0, true)`, `(0, true)`, and
`(false, true)`. -/
theorem c10_null_getters_witness :
    Value.getInt64 vNoneX (bs "x") = (0, true) ∧
      Value.getBig vNoneX (bs "x") = (some 0, true) ∧
      Value.getBool vNoneX (bs "x") = (false, true) :=
  c10_null_getters vNoneX (bs "x") mNoneX (by rfl) (by decide)

end Micheline
